import Mathlib

/-!
Verification of the image-sync job execution core (Go sources) against its
natural-language specification.  The Go code is shallowly embedded: every
definition below is a direct translation of the corresponding function in
the source tree (models.SyncTask, service.syncService, repository
.InMemoryTaskRepository, handler.SyncHandler.StreamLogs).  Machine integers
are modelled by Int, Go time.Time values by Int timestamps, Go channels by
bounded queues (lists) with a fresh numeric identity, and the external
process / OS behaviour by an explicit environment record.
-/

namespace ImageSync

/-- Task status strings exactly as declared in models (SyncStatus constants). -/
def statusPending : String := "pending"

/-- Status constant for a running task. -/
def statusRunning : String := "running"

/-- Status constant for a successfully completed task. -/
def statusCompleted : String := "completed"

/-- Status constant for a failed task. -/
def statusFailed : String := "failed"

/-- A status is terminal when it is completed or failed. -/
def isTerminal (st : String) : Bool := st == statusCompleted || st == statusFailed

/-- models.SyncRequest: the request body for creating a sync task.
RetryTimes is accepted by the API but unused by the executor, so it is omitted. -/
structure SyncRequest where
  sourceImage : String
  destImage : String
  sourceUsername : String := ""
  sourcePassword : String := ""
  destUsername : String := ""
  destPassword : String := ""
  architecture : String := ""
  srcTLSVerify : Option Bool := none
  destTLSVerify : Option Bool := none
deriving DecidableEq

/-- models.SyncTask.  Go channels (LogListeners []chan string) are modelled as
bounded queues: a list of (channel identity, pending lines); nextCh provides
fresh channel identities, mirroring allocation of a new Go channel. -/
structure SyncTask where
  id : String
  sourceImage : String
  destImage : String
  architecture : String
  status : String
  message : String
  output : String
  errorOutput : String
  startTime : Int
  endTime : Option Int
  logLines : List String
  logListeners : List (Nat × List String)
  nextCh : Nat
deriving DecidableEq

/-- Capacity of a listener channel: make(chan string, 100). -/
def chanCap : Nat := 100

/-- models.NewSyncTask: fresh task with pending status, empty log, no EndTime. -/
def NewSyncTask (id sourceImage destImage architecture : String) (now : Int) : SyncTask :=
  { id := id, sourceImage := sourceImage, destImage := destImage,
    architecture := architecture, status := statusPending, message := "Task created",
    output := "", errorOutput := "", startTime := now, endTime := none,
    logLines := [], logListeners := [], nextCh := 0 }

/-- SyncTask.AddLog: under the task lock, append the line to LogLines and do a
non-blocking send to every listener channel (a full channel drops the line). -/
def AddLog (t : SyncTask) (line : String) : SyncTask :=
  { t with
    logLines := t.logLines ++ [line],
    logListeners := t.logListeners.map fun p =>
      if p.2.length < chanCap then (p.1, p.2 ++ [line]) else p }

/-- SyncTask.AddLogListener: under the task lock, register a fresh buffered
channel and return its identity together with the updated task. -/
def AddLogListener (t : SyncTask) : Nat × SyncTask :=
  (t.nextCh,
   { t with logListeners := t.logListeners ++ [(t.nextCh, [])], nextCh := t.nextCh + 1 })

/-- SyncTask.RemoveLogListener: deregister (and close) the given channel. -/
def RemoveLogListener (t : SyncTask) (c : Nat) : SyncTask :=
  { t with logListeners := t.logListeners.filter fun p => p.1 != c }

/-- SyncTask.CloseAllLogListeners: close every channel and empty the set. -/
def CloseAllLogListeners (t : SyncTask) : SyncTask :=
  { t with logListeners := [] }

/-- SyncTask.GetLogLines: a copy of the accumulated log lines. -/
def GetLogLines (t : SyncTask) : List String := t.logLines

/-- Go fmt rendering of a bool (%v). -/
def goBool : Bool → String
  | true => "true"
  | false => "false"

/-- strings.HasPrefix. -/
def goHasPrefix (s pre : String) : Bool := pre.data.isPrefixOf s.data

/-- Character-level worker for strings.Split with a one-character separator:
acc holds the current field in reverse. -/
def goSplitAux (sep : Char) : List Char → List Char → List (List Char)
  | [], acc => [acc.reverse]
  | c :: cs, acc =>
    if c = sep then acc.reverse :: goSplitAux sep cs []
    else goSplitAux sep cs (c :: acc)

/-- strings.Split s sep for a one-character separator (the only uses in the
source are "/" and "=").  Split of the empty string is [""], as in Go. -/
def goSplit (s : String) (sep : Char) : List String :=
  (goSplitAux sep s.data []).map String.mk

/-- The architecture-selection part of buildSkopeoArgs: "all" emits --all, a
selector with at least two slash-separated components emits override flags for
os, arch and (if present) variant, anything else emits nothing. -/
def archArgsGo (arch : String) : List String :=
  if arch = "all" then ["--all"]
  else if arch ≠ "" then
    let parts := goSplit arch '/'
    if 2 ≤ parts.length then
      ["--override-os", parts.getD 0 "", "--override-arch", parts.getD 1 ""]
        ++ (if 2 < parts.length then ["--override-variant", parts.getD 2 ""] else [])
    else []
  else []

/-- Log lines added by the architecture branch of buildSkopeoArgs. -/
def archLogsGo (arch : String) : List String :=
  if arch = "all" then ["Copying all architectures"]
  else if arch ≠ "" then
    if 2 ≤ (goSplit arch '/').length then ["Copying architecture: " ++ arch] else []
  else []

/-- syncService.buildSkopeoArgs: returns the skopeo argument list and the log
lines the construction appends to the task (via task.AddLog), in order.
arch, srcImage and dstImage are the task fields used by the Go method. -/
def buildSkopeoArgs (arch srcImage dstImage : String) (req : SyncRequest) :
    List String × List String :=
  let srcTLSVerify := req.srcTLSVerify.getD true
  let destTLSVerify := req.destTLSVerify.getD true
  let args := ["copy", "--src-tls-verify=" ++ goBool srcTLSVerify,
               "--dest-tls-verify=" ++ goBool destTLSVerify]
  let srcCreds : List String :=
    if req.sourceUsername ≠ "" ∧ req.sourcePassword ≠ "" then
      ["--src-creds", req.sourceUsername ++ ":" ++ req.sourcePassword]
    else []
  let srcLogs : List String :=
    if req.sourceUsername ≠ "" ∧ req.sourcePassword ≠ "" then
      ["Using source credentials"]
    else []
  let destCreds : List String :=
    if req.destUsername ≠ "" ∧ req.destPassword ≠ "" then
      ["--dest-creds", req.destUsername ++ ":" ++ req.destPassword]
    else []
  let destLogs : List String :=
    if req.destUsername ≠ "" ∧ req.destPassword ≠ "" then
      ["Using destination credentials"]
    else []
  (args ++ srcCreds ++ destCreds ++ archArgsGo arch
        ++ ["docker://" ++ srcImage, "docker://" ++ dstImage],
   srcLogs ++ destLogs ++ archLogsGo arch)

/-- CreateSyncTask defaults an empty architecture to "all". -/
def normalizeArch (a : String) : String := if a = "" then "all" else a

/-- service.CreateSyncTask: build the fresh task stored in the repository. -/
def CreateSyncTask (req : SyncRequest) (taskID : String) (now : Int) : SyncTask :=
  NewSyncTask taskID req.sourceImage req.destImage (normalizeArch req.architecture) now

/-- The recursion of sanitizeCommand over the argument list, carrying the
skipNext flag: the argument following a credential flag is replaced by
a mask, and inline values of the form --src-creds=user:pass are masked too. -/
def sanitizeArgs : List String → Bool → List String
  | [], _ => []
  | arg :: rest, skipNext =>
    if skipNext then
      "***:***" :: sanitizeArgs rest false
    else if goHasPrefix arg "--src-creds=" ∨ goHasPrefix arg "--dest-creds=" then
      (((goSplit arg '=').getD 0 "") ++ "=***:***") :: sanitizeArgs rest false
    else if arg = "--creds" ∨ arg = "--src-creds" ∨ arg = "--dest-creds" then
      arg :: sanitizeArgs rest true
    else
      arg :: sanitizeArgs rest false

/-- service.sanitizeCommand: the masked command string written to the log. -/
def sanitizeCommand (args : List String) : String :=
  "skopeo " ++ String.intercalate " " (sanitizeArgs args false)

/-- ASCII whitespace as trimmed by strings.TrimSpace on skopeo output. -/
def isSpace (c : Char) : Bool := c = ' ' || c = '\t' || c = '\n' || c = '\r'

/-- strings.TrimSpace on a character list: drop leading and trailing whitespace. -/
def trimChars (cs : List Char) : List Char :=
  ((cs.dropWhile isSpace).reverse.dropWhile isSpace).reverse

/-- strings.TrimSpace. -/
def trimSpace (s : String) : String := String.mk (trimChars s.data)

/-- bufio.Reader.ReadString at delimiter newline: returns the consumed
characters (delimiter included), the remaining stream, and whether the
stream ended before a delimiter was found (the io.EOF case). -/
def readStringNL : List Char → List Char × List Char × Bool
  | [] => ([], [], true)
  | c :: cs =>
    if c = '\n' then ([c], cs, false)
    else
      let r := readStringNL cs
      (c :: r.1, r.2.1, r.2.2)

/-- The read loop of syncService.readOutput, with a fuel parameter (any fuel
larger than the stream length runs the loop to completion; the loop consumes
at least one character per iteration).  A complete line is trimmed and
appended only when non-empty after trimming; a trailing partial line at EOF
is appended (trimmed) whenever it is non-empty before trimming. -/
def readOutputLoop : Nat → List Char → List String
  | 0, _ => []
  | fuel + 1, cs =>
    let r := readStringNL cs
    if r.2.2 then
      if r.1 ≠ [] then [trimSpace (String.mk r.1)] else []
    else
      let t := trimSpace (String.mk r.1)
      (if t ≠ "" then [t] else []) ++ readOutputLoop fuel r.2.1

/-- syncService.readOutput: the log lines appended for one output pipe whose
full contents are cs. -/
def readOutputLogs (cs : List Char) : List String :=
  readOutputLoop (cs.length + 1) cs

/-- Declarative split of a stream into its complete lines (newline-terminated,
delimiter excluded) and the trailing partial line. -/
def splitNL : List Char → List (List Char) × List Char
  | [] => ([], [])
  | c :: rest =>
    let r := splitNL rest
    if c = '\n' then ([] :: r.1, r.2)
    else
      match r.1 with
      | l :: ls => ((c :: l) :: ls, r.2)
      | [] => ([], c :: r.2)

/-- The lines of a stream as the claim reads them: every complete line plus
the flushed trailing partial line, in order, contents untouched. -/
def allStreamLines (cs : List Char) : List String :=
  (splitNL cs).1.map String.mk
    ++ (if (splitNL cs).2 ≠ [] then [String.mk (splitNL cs).2] else [])

/-- models.TaskListRequest (query parameters of the task-list endpoint). -/
structure TaskListRequest where
  page : Int
  pageSize : Int
  status : String := ""
  sortBy : String := "startTime"
  sortOrder : String := "desc"

/-- models.TaskSummary: reduced projection of a task for list responses. -/
structure TaskSummary where
  id : String
  sourceImage : String
  destImage : String
  architecture : String
  status : String
  message : String
  startTime : Int
  endTime : Option Int
deriving DecidableEq

/-- models.TaskListResponse. -/
structure TaskListResponse where
  total : Int
  page : Int
  pageSize : Int
  tasks : List TaskSummary
deriving DecidableEq

/-- The summary projection built by ListTasks. -/
def toSummary (t : SyncTask) : TaskSummary :=
  { id := t.id, sourceImage := t.sourceImage, destImage := t.destImage,
    architecture := t.architecture, status := t.status, message := t.message,
    startTime := t.startTime, endTime := t.endTime }

/-- The adjacent-swap test of service.sortTasks: true when tasks j and j+1
must be exchanged.  For endTime, a nil end time sinks to the back in
ascending order and to the front in descending order; otherwise the
comparison is on the timestamps (time.Before / time.After are strict). -/
def shouldSwapTask (sortBy sortOrder : String) (t1 t2 : SyncTask) : Bool :=
  if sortBy = "endTime" then
    match t1.endTime, t2.endTime with
    | none, none => false
    | none, some _ => sortOrder = "asc"
    | some _, none => sortOrder = "desc"
    | some a, some b => if sortOrder = "desc" then a < b else b < a
  else
    if sortOrder = "desc" then t1.startTime < t2.startTime
    else t2.startTime < t1.startTime

/-- One inner pass of the bubble sort: m compare-and-swap steps over
adjacent positions starting from the front (j = 0 .. m-1). -/
def sweep (s : α → α → Bool) : List α → Nat → List α
  | xs, 0 => xs
  | [], _ + 1 => []
  | [x], _ + 1 => [x]
  | x :: y :: rest, m + 1 =>
    if s x y then y :: sweep s (x :: rest) m else x :: sweep s (y :: rest) m

/-- The outer loop of the bubble sort: passes with shrinking bounds
b, b-1, ..., 1 (iteration i of the Go loop uses bound n-i-1). -/
def bubbleFrom (s : α → α → Bool) : List α → Nat → List α
  | xs, 0 => xs
  | xs, b + 1 => bubbleFrom s (sweep s xs (b + 1)) b

/-- The in-place bubble sort of service.sortTasks, generically. -/
def bubbleSortGo (s : α → α → Bool) (xs : List α) : List α :=
  bubbleFrom s xs (xs.length - 1)

/-- service.sortTasks. -/
def sortTasks (tasks : List SyncTask) (sortBy sortOrder : String) : List SyncTask :=
  bubbleSortGo (shouldSwapTask sortBy sortOrder) tasks

/-- The smallest Go int64 value. -/
def int64Min : Int := -9223372036854775808

/-- The largest Go int64 value. -/
def int64Max : Int := 9223372036854775807

/-- Two-complement wrap-around of Go 64-bit int arithmetic: the result of an
int operation reduced into the int64 range. -/
def wrap64 (x : Int) : Int :=
  (x - int64Min) % 18446744073709551616 + int64Min

/-- service.ListTasks on the repository contents: filter by status when one
is given, sort, clamp page/pageSize, compute the window bounds with Go's
wrapping 64-bit int arithmetic, slice, project to summaries.  The slice
expression filtered[start:end] panics (surfaced as an HTTP 500 by the gin
Recovery middleware) unless 0 ≤ start ≤ end ≤ len; none models that panic. -/
def listTasks (tasks : List SyncTask) (req : TaskListRequest) :
    Option TaskListResponse :=
  let filtered := if req.status ≠ "" then tasks.filter (fun t => t.status == req.status)
                  else tasks
  let sorted := sortTasks filtered req.sortBy req.sortOrder
  let total : Int := sorted.length
  let page := if req.page < 1 then 1 else req.page
  let pageSize := if req.pageSize < 1 then 20 else req.pageSize
  let pageSize := if 100 < pageSize then 100 else pageSize
  let start := wrap64 (wrap64 (page - 1) * pageSize)
  let stop := wrap64 (start + pageSize)
  let start := if total < start then total else start
  let stop := if total < stop then total else stop
  if 0 ≤ start ∧ start ≤ stop ∧ stop ≤ total then
    some { total := total, page := page, pageSize := pageSize,
           tasks := ((sorted.drop start.toNat).take (stop.toNat - start.toNat)).map
             toSummary }
  else none

/-- Repository errors (ErrTaskNotFound). -/
inductive RepoErr
  | taskNotFound
deriving DecidableEq

/-- InMemoryTaskRepository: the Go map tasks[string]*SyncTask is modelled as
an association list keyed by task ID (insertion order stands in for the
map's unspecified iteration order). -/
structure TaskRepo where
  tasks : List (String × SyncTask)
deriving DecidableEq

/-- Go map assignment m[k] = v: replace the entry if the key is present,
otherwise add a new one. -/
def mapStore (m : List (String × SyncTask)) (k : String) (v : SyncTask) :
    List (String × SyncTask) :=
  if m.any (fun p => p.1 == k) then
    m.map fun p => if p.1 == k then (k, v) else p
  else m ++ [(k, v)]

/-- InMemoryTaskRepository.Create: stores unconditionally and returns nil. -/
def repoCreate (r : TaskRepo) (t : SyncTask) : Except RepoErr TaskRepo :=
  Except.ok { tasks := mapStore r.tasks t.id t }

/-- InMemoryTaskRepository.Get. -/
def repoGet (r : TaskRepo) (id : String) : Except RepoErr SyncTask :=
  match r.tasks.find? (fun p => p.1 == id) with
  | some p => Except.ok p.2
  | none => Except.error RepoErr.taskNotFound

/-- InMemoryTaskRepository.Update: requires the ID to exist. -/
def repoUpdate (r : TaskRepo) (t : SyncTask) : Except RepoErr TaskRepo :=
  if r.tasks.any (fun p => p.1 == t.id) then
    Except.ok { tasks := mapStore r.tasks t.id t }
  else Except.error RepoErr.taskNotFound

/-- InMemoryTaskRepository.List: all stored tasks. -/
def repoList (r : TaskRepo) : List SyncTask := r.tasks.map (fun p => p.2)

/-- Observable actions the executor goroutine performs on the task, in
program order: log appends, status writes, the EndTime write, closing all
listener channels, and write-backs through the repository. -/
inductive Ev
  | addLog (line : String)
  | setStatus (st : String)
  | setEndTime
  | closeListeners
  | update
deriving DecidableEq

/-- Behaviour of the outside world during one ExecuteSync run: whether the
two pipe creations and the process start succeed (with the error messages
of the returned Go errors), the result of cmd.Wait, whether the deadline
expired, the lines the two reader goroutines appended (in the order the
appends took effect, serialized here at the reader-join point), the
formatted wall-clock strings used in log lines, and the end timestamp. -/
structure ExecEnv where
  stdoutPipeOk : Bool
  stdoutPipeErrMsg : String
  stderrPipeOk : Bool
  stderrPipeErrMsg : String
  startOk : Bool
  startErrMsg : String
  waitOk : Bool
  waitErrMsg : String
  timedOut : Bool
  readerLines : List String
  nowStart : String
  nowEnd : String
  endTimeVal : Int
deriving DecidableEq

/-- Append a batch of log lines, recording one addLog event per line. -/
def appendAllEv (t : SyncTask) (evs : List Ev) (lines : List String) :
    SyncTask × List Ev :=
  (lines.foldl AddLog t, evs ++ lines.map Ev.addLog)

/-- syncService.handleTaskError: log the error, mark the task failed with
the message and error output, set EndTime, write back.  It does not close
the log listeners. -/
def handleTaskError (t : SyncTask) (evs : List Ev) (message errMsg : String)
    (endT : Int) : SyncTask × List Ev :=
  let t1 := AddLog t ("Error: " ++ errMsg)
  let t2 := { t1 with status := statusFailed, message := message,
                      errorOutput := errMsg, endTime := some endT }
  (t2, evs ++ [Ev.addLog ("Error: " ++ errMsg), Ev.setStatus statusFailed,
               Ev.setEndTime, Ev.update])

/-- syncService.ExecuteSync after the initial repository Get succeeded (the
task exists; IDs of submitted jobs are always found).  Returns the final
task value together with the executor's event trace.  timeout is the
configured deadline in seconds (s.timeout). -/
def executeSync (timeout : Int) (env : ExecEnv) (req : SyncRequest) (t0 : SyncTask) :
    SyncTask × List Ev :=
  let t := { t0 with status := statusRunning, message := "Syncing image..." }
  let evs := [Ev.setStatus statusRunning, Ev.update]
  let startLine := "Task started at " ++ env.nowStart
  let t := AddLog t startLine
  let evs := evs ++ [Ev.addLog startLine]
  let ba := buildSkopeoArgs t.architecture t.sourceImage t.destImage req
  let p := appendAllEv t evs ba.2
  let t := p.1
  let evs := p.2
  let execLine := "Executing: " ++ sanitizeCommand ba.1
  let t := AddLog t execLine
  let evs := evs ++ [Ev.addLog execLine]
  if env.stdoutPipeOk = false then
    handleTaskError t evs "Failed to create stdout pipe" env.stdoutPipeErrMsg env.endTimeVal
  else if env.stderrPipeOk = false then
    handleTaskError t evs "Failed to create stderr pipe" env.stderrPipeErrMsg env.endTimeVal
  else if env.startOk = false then
    handleTaskError t evs "Failed to start command" env.startErrMsg env.endTimeVal
  else
    let waitErr : Option String := if env.waitOk then none else some env.waitErrMsg
    let timeoutLine := "Timeout exceeded (" ++ toString timeout ++ "s)"
    let err : Option String :=
      if env.timedOut then some ("command timeout after " ++ toString timeout ++ "s")
      else waitErr
    let t := if env.timedOut then AddLog t timeoutLine else t
    let evs := if env.timedOut then evs ++ [Ev.addLog timeoutLine] else evs
    let p2 := appendAllEv t evs env.readerLines
    let t := p2.1
    let evs := p2.2
    let finalLine :=
      match err with
      | some m => "Sync failed: " ++ m
      | none => "Sync completed at " ++ env.nowEnd
    let t := AddLog t finalLine
    let evs := evs ++ [Ev.addLog finalLine]
    let t := CloseAllLogListeners t
    let evs := evs ++ [Ev.closeListeners]
    let t := { t with endTime := some env.endTimeVal,
                      output := String.intercalate "\n" (GetLogLines t) }
    let evs := evs ++ [Ev.setEndTime]
    let t :=
      match err with
      | some m => { t with status := statusFailed, message := "Sync failed",
                           errorOutput := m }
      | none => { t with status := statusCompleted,
                         message := "Sync completed successfully" }
    let st := match err with
      | some _ => statusFailed
      | none => statusCompleted
    (t, evs ++ [Ev.setStatus st, Ev.update])

/-- Number of closeListeners events in a trace. -/
def countClose (tr : List Ev) : Nat := tr.countP (fun e => e == Ev.closeListeners)

/-- Number of terminal setStatus events in a trace. -/
def countTerminalSet (tr : List Ev) : Nat :=
  tr.countP fun e =>
    match e with
    | Ev.setStatus st => isTerminal st
    | _ => false

/-- Scan a trace: true when every closeListeners event is preceded by a
terminal setStatus event (seen records whether one has occurred). -/
def closesAfterTerminal : List Ev → Bool → Bool
  | [], _ => true
  | Ev.setStatus st :: rest, seen => closesAfterTerminal rest (seen || isTerminal st)
  | Ev.closeListeners :: rest, seen => seen && closesAfterTerminal rest seen
  | _ :: rest, seen => closesAfterTerminal rest seen

/-- Scan a trace: true when every terminal setStatus and every setEndTime
event is preceded by a closeListeners event. -/
def finalizeAfterClose : List Ev → Bool → Bool
  | [], _ => true
  | Ev.closeListeners :: rest, _ => finalizeAfterClose rest true
  | Ev.setStatus st :: rest, seen =>
    (!isTerminal st || seen) && finalizeAfterClose rest seen
  | Ev.setEndTime :: rest, seen => seen && finalizeAfterClose rest seen
  | _ :: rest, seen => finalizeAfterClose rest seen

/-- Apply a batch of AddLog calls. -/
def appendAll (t : SyncTask) (lines : List String) : SyncTask := lines.foldl AddLog t

/-- Pending contents of the listener channel with identity c. -/
def chanBuf (t : SyncTask) (c : Nat) : List String :=
  match t.logListeners.find? (fun p => p.1 == c) with
  | some p => p.2
  | none => []

/-- An atomic step interleaved with a live subscription: either the executor
appends a log line (AddLog), or the subscriber receives one pending line
from its channel. -/
inductive TailOp
  | app (line : String)
  | recv
deriving DecidableEq

/-- State of a live subscription: the shared task, the subscriber's channel
identity, and the lines the subscriber has received so far. -/
structure TailState where
  task : SyncTask
  ch : Nat
  received : List String
deriving DecidableEq

/-- Replace the pending contents of channel c. -/
def setChanBuf (t : SyncTask) (c : Nat) (buf : List String) : SyncTask :=
  { t with logListeners := t.logListeners.map fun p =>
      if p.1 == c then (p.1, buf) else p }

/-- One interleaved step (a receive on an empty channel blocks, i.e. is a
no-op here). -/
def stepTail (st : TailState) : TailOp → TailState
  | TailOp.app l => { st with task := AddLog st.task l }
  | TailOp.recv =>
    match chanBuf st.task st.ch with
    | [] => st
    | l :: rest =>
      { st with task := setChanBuf st.task st.ch rest, received := st.received ++ [l] }

/-- Run a sequence of interleaved steps. -/
def runTail (st : TailState) (ops : List TailOp) : TailState := ops.foldl stepTail st

/-- The lines appended by a sequence of interleaved steps. -/
def appsOf (ops : List TailOp) : List String :=
  ops.filterMap fun o =>
    match o with
    | TailOp.app l => some l
    | TailOp.recv => none

/-- handler.StreamLogs on a non-terminal task, as the code performs it: the
snapshot GetLogLines is one locked step, AddLogListener a second, separate
locked step.  mid is the list of lines the executor appends between the two
steps, ops the interleaving after registration.  Returns the snapshot sent
to the client and the final subscription state. -/
def streamLogsRun (t0 : SyncTask) (mid : List String) (ops : List TailOp) :
    List String × TailState :=
  let snapshot := GetLogLines t0
  let t1 := appendAll t0 mid
  let r := AddLogListener t1
  (snapshot, runTail { task := r.2, ch := r.1, received := [] } ops)

/-- Everything the subscriber observes when it drains its channel to the
end: the replayed snapshot, the received lines, then the still-pending
lines (delivered before the channel closes). -/
def observedLines (t0 : SyncTask) (mid : List String) (ops : List TailOp) :
    List String :=
  let r := streamLogsRun t0 mid ops
  r.1 ++ r.2.received ++ chanBuf r.2.task r.2.ch

/-- The filtered-then-sorted task list inside ListTasks, named for the
pagination statement. -/
def filteredSorted (tasks : List SyncTask) (req : TaskListRequest) : List SyncTask :=
  sortTasks (if req.status ≠ "" then tasks.filter (fun t => t.status == req.status) else tasks)
    req.sortBy req.sortOrder

/-- The effective page number: a page below 1 is treated as 1. -/
def effPage (p : Int) : Int := if p < 1 then 1 else p

/-- The effective page size: below 1 falls back to the default 20, above 100
is clamped to 100. -/
def effPageSize (ps : Int) : Int := if ps < 1 then 20 else if 100 < ps then 100 else ps

/-- The swap test induced by a sort key into a linear order: swap exactly
when the left key is strictly greater. -/
def keySwap {κ : Type} [LinearOrder κ] (k : α → κ) (a b : α) : Bool :=
  decide (k b < k a)

/-- Sort key realizing the endTime-ascending comparator: a missing end time
is larger than every concrete one. -/
def keyEndAsc (t : SyncTask) : WithTop Int :=
  match t.endTime with
  | none => ⊤
  | some x => (x : WithTop Int)

/-- Sort key realizing the endTime-descending comparator: a missing end time
is smaller than every key, concrete times are negated. -/
def keyEndDesc (t : SyncTask) : WithBot Int :=
  match t.endTime with
  | none => ⊥
  | some x => ((-x : Int) : WithBot Int)

/-- Lift a swap test to index-decorated elements, ignoring the index: the
decorated run performs exactly the same comparisons as the plain one. -/
def pairSwap (s : α → α → Bool) (a b : Nat × α) : Bool := s a.2 b.2

/-- The declarative description of readOutput's log lines: the trimmed
non-empty complete lines in order, then the trimmed trailing partial line
when it is non-empty before trimming. -/
def readLinesSpec (cs : List Char) : List String :=
  (((splitNL cs).1.map (fun l => trimSpace (String.mk l))).filter (fun x => x ≠ ""))
    ++ (if (splitNL cs).2 ≠ [] then [trimSpace (String.mk (splitNL cs).2)] else [])

/-- A concrete request used by witnesses. -/
def reqSample : SyncRequest :=
  { sourceImage := "reg.example.com/app", destImage := "mirror.example.com/app",
    sourceUsername := "alice", sourcePassword := "pw1",
    destUsername := "bob", destPassword := "pw2" }

/-- A concrete environment in which everything succeeds. -/
def envOk : ExecEnv :=
  { stdoutPipeOk := true, stdoutPipeErrMsg := "",
    stderrPipeOk := true, stderrPipeErrMsg := "",
    startOk := true, startErrMsg := "",
    waitOk := true, waitErrMsg := "",
    timedOut := false, readerLines := [],
    nowStart := "t0", nowEnd := "t1", endTimeVal := 5 }

/-- A concrete environment in which the deadline expires. -/
def envTimeout : ExecEnv :=
  { envOk with waitOk := false, waitErrMsg := "signal: killed", timedOut := true,
               stdoutPipeErrMsg := "broken pipe", stderrPipeErrMsg := "broken pipe",
               startErrMsg := "executable file not found" }

/-- A concrete running task with an empty log, as a stream-subscription
starting point. -/
def runningTask : SyncTask :=
  { NewSyncTask "task-1" "reg.example.com/app" "mirror.example.com/app" "all" 0 with
      status := statusRunning }

/-- A concrete stored task. -/
def taskA : SyncTask := NewSyncTask "a" "s1" "d1" "all" 0

/-- A second concrete task sharing taskA's identifier. -/
def taskB : SyncTask :=
  { NewSyncTask "a" "s2" "d2" "all" 1 with status := statusCompleted }

theorem find?_mapStore_self (m : List (String × SyncTask)) (k : String) (v : SyncTask) :
    (mapStore m k v).find? (fun p => p.1 == k) = some (k, v) := by
  unfold mapStore
  by_cases h : m.any (fun p => p.1 == k)
  · rw [if_pos h]
    induction m with
    | nil => simp at h
    | cons p m ih =>
      by_cases hp : (p.1 == k) = true
      · simp [List.find?, hp]
      · have h2 : m.any (fun p => p.1 == k) = true := by
          rcases List.any_eq_true.mp h with ⟨q, hq, hqk⟩
          rcases List.mem_cons.mp hq with rfl | hq2
          · exact absurd hqk hp
          · exact List.any_eq_true.mpr ⟨q, hq2, hqk⟩
        simpa [List.find?, hp] using ih h2
  · rw [if_neg h]
    induction m with
    | nil => simp [List.find?]
    | cons p m ih =>
      have hp : (p.1 == k) = false := by
        by_contra hc
        exact h (List.any_eq_true.mpr ⟨p, List.mem_cons_self p m, by simpa using hc⟩)
      have h2 : ¬ m.any (fun p => p.1 == k) = true := by
        intro hc
        rcases List.any_eq_true.mp hc with ⟨q, hq, hqk⟩
        exact h (List.any_eq_true.mpr ⟨q, List.mem_cons_of_mem p hq, hqk⟩)
      simpa [List.find?, hp] using ih h2

theorem find?_mapStore_other (m : List (String × SyncTask)) (k k2 : String) (v : SyncTask)
    (hne : k2 ≠ k) :
    (mapStore m k v).find? (fun p => p.1 == k2) = m.find? (fun p => p.1 == k2) := by
  unfold mapStore
  by_cases h : m.any (fun p => p.1 == k)
  · rw [if_pos h]
    clear h
    induction m with
    | nil => rfl
    | cons p m ih =>
      rw [List.map_cons]
      by_cases hp : (p.1 == k) = true
      · have hk : p.1 = k := by simpa using hp
        have hkk2 : (k == k2) = false := by
          simpa using (Ne.symm hne)
        have hpk2 : (p.1 == k2) = false := by rw [hk]; exact hkk2
        rw [if_pos hp]
        simp only [List.find?, hkk2, hpk2]
        exact ih
      · rw [if_neg hp]
        by_cases hq : (p.1 == k2) = true
        · simp only [List.find?, hq]
        · simp only [List.find?, Bool.eq_false_iff.mpr hq]
          exact ih
  · rw [if_neg h]
    clear h
    induction m with
    | nil =>
      have hkk2 : (k == k2) = false := by simpa using (Ne.symm hne)
      simp only [List.nil_append, List.find?, hkk2]
    | cons p m ih =>
      rw [List.cons_append]
      by_cases hq : (p.1 == k2) = true
      · simp only [List.find?, hq]
      · simp only [List.find?, Bool.eq_false_iff.mpr hq]
        exact ih

/-- C10: the Registry's Create never fails: it returns success for every
task, and when a task with the same identifier is already stored it silently
replaces the stored reference: Get of that identifier afterwards returns the
new task, other identifiers are untouched, and every task reachable through
List is either the new task or a previously stored task under a different
identifier. -/
theorem repoCreate_silent_replace (r : TaskRepo) (t : SyncTask) :
    repoCreate r t = Except.ok { tasks := mapStore r.tasks t.id t } ∧
    repoGet { tasks := mapStore r.tasks t.id t } t.id = Except.ok t ∧
    (∀ k, k ≠ t.id → repoGet { tasks := mapStore r.tasks t.id t } k = repoGet r k) ∧
    (∀ u, u ∈ repoList { tasks := mapStore r.tasks t.id t } →
        u = t ∨ ∃ p ∈ r.tasks, p.1 ≠ t.id ∧ p.2 = u) := by
  refine ⟨rfl, ?_, ?_, ?_⟩
  · show repoGet _ _ = _
    unfold repoGet
    rw [show ({ tasks := mapStore r.tasks t.id t } : TaskRepo).tasks = mapStore r.tasks t.id t from rfl]
    rw [find?_mapStore_self]
  · intro k hk
    unfold repoGet
    rw [show ({ tasks := mapStore r.tasks t.id t } : TaskRepo).tasks = mapStore r.tasks t.id t from rfl]
    rw [find?_mapStore_other r.tasks t.id k t hk]
  · intro u hu
    unfold repoList at hu
    rw [show ({ tasks := mapStore r.tasks t.id t } : TaskRepo).tasks = mapStore r.tasks t.id t from rfl]
      at hu
    unfold mapStore at hu
    by_cases h : r.tasks.any (fun p => p.1 == t.id)
    · rw [if_pos h] at hu
      rcases List.mem_map.mp hu with ⟨q, hq, he⟩
      rcases List.mem_map.mp hq with ⟨p, hp, hpe⟩
      by_cases hpk : (p.1 == t.id) = true
      · left
        rw [if_pos hpk] at hpe
        rw [← hpe] at he
        exact he.symm
      · right
        rw [if_neg hpk] at hpe
        refine ⟨p, hp, by simpa using hpk, ?_⟩
        rw [hpe]; exact he
    · rw [if_neg h] at hu
      rw [List.map_append, List.mem_append] at hu
      rcases hu with h1 | h2
      · rcases List.mem_map.mp h1 with ⟨p, hp, he⟩
        right
        have hpk : (p.1 == t.id) = false := by
          by_contra hc
          exact h (List.any_eq_true.mpr ⟨p, hp, by simpa using hc⟩)
        exact ⟨p, hp, by simpa using hpk, he⟩
      · left
        simpa using h2

/-- C10 witness: replacing the task stored under identifier a leaves other
lookups untouched, evaluated at concrete tasks. -/
theorem repoCreate_silent_replace_witness :
    "x" ≠ taskB.id ∧
    repoGet { tasks := mapStore [(taskA.id, taskA)] taskB.id taskB } "x" =
      repoGet { tasks := [(taskA.id, taskA)] } "x" :=
  ⟨by decide,
   (repoCreate_silent_replace { tasks := [(taskA.id, taskA)] } taskB).2.2.1 "x" (by decide)⟩

theorem normalizeArch_ne_empty (a : String) : normalizeArch a ≠ "" := by
  unfold normalizeArch
  by_cases h : a = ""
  · rw [if_pos h]; intro hc; exact absurd hc (by decide)
  · rw [if_neg h]; exact h

/-- C8: command construction emits the all-architectures flag exactly when
the effective architecture selector (empty defaults to all) is all; a
selector splitting into two components emits exactly the os and arch
override flags, three components add the variant flag, fewer than two
components emit nothing; and the emitted flags appear contiguously in the
constructed command. -/
theorem archArgs_selector (req : SyncRequest) (src dst : String) :
    ((req.architecture = "" ∨ req.architecture = "all") →
        archArgsGo (normalizeArch req.architecture) = ["--all"]) ∧
    (normalizeArch req.architecture ≠ "all" →
      (((goSplit (normalizeArch req.architecture) '/').length = 2 →
        archArgsGo (normalizeArch req.architecture) =
          ["--override-os", (goSplit (normalizeArch req.architecture) '/').getD 0 "",
           "--override-arch", (goSplit (normalizeArch req.architecture) '/').getD 1 ""]) ∧
      ((goSplit (normalizeArch req.architecture) '/').length = 3 →
        archArgsGo (normalizeArch req.architecture) =
          ["--override-os", (goSplit (normalizeArch req.architecture) '/').getD 0 "",
           "--override-arch", (goSplit (normalizeArch req.architecture) '/').getD 1 "",
           "--override-variant", (goSplit (normalizeArch req.architecture) '/').getD 2 ""]) ∧
      ((goSplit (normalizeArch req.architecture) '/').length < 2 →
        archArgsGo (normalizeArch req.architecture) = []))) ∧
    archArgsGo (normalizeArch req.architecture) <:+:
      (buildSkopeoArgs (normalizeArch req.architecture) src dst req).1 := by
  refine ⟨?_, ?_, ?_⟩
  · intro h
    have ha : normalizeArch req.architecture = "all" := by
      rcases h with h | h <;> rw [h] <;> rfl
    rw [ha]
    rfl
  · intro hne
    have hempty := normalizeArch_ne_empty req.architecture
    refine ⟨?_, ?_, ?_⟩
    · intro hlen
      rw [archArgsGo, if_neg hne, if_pos hempty, if_pos (by rw [hlen])]
      rw [if_neg (by rw [hlen]; exact by decide)]
      simp
    · intro hlen
      rw [archArgsGo, if_neg hne, if_pos hempty, if_pos (by rw [hlen]; exact by decide)]
      rw [if_pos (by rw [hlen]; exact by decide)]
      simp
    · intro hlen
      rw [archArgsGo, if_neg hne, if_pos hempty, if_neg (by omega)]
  · refine ⟨["copy", "--src-tls-verify=" ++ goBool (req.srcTLSVerify.getD true),
            "--dest-tls-verify=" ++ goBool (req.destTLSVerify.getD true)]
        ++ (if req.sourceUsername ≠ "" ∧ req.sourcePassword ≠ "" then
              ["--src-creds", req.sourceUsername ++ ":" ++ req.sourcePassword] else [])
        ++ (if req.destUsername ≠ "" ∧ req.destPassword ≠ "" then
              ["--dest-creds", req.destUsername ++ ":" ++ req.destPassword] else []),
        ["docker://" ++ src, "docker://" ++ dst], ?_⟩
    unfold buildSkopeoArgs
    simp [List.append_assoc]

/-- C8 witness: the three-component selector linux arm v7 yields exactly the
three override flag pairs. -/
theorem archArgs_selector_witness :
    (goSplit (normalizeArch "linux/arm/v7") '/').length = 3 ∧
    archArgsGo (normalizeArch "linux/arm/v7") =
      ["--override-os", "linux", "--override-arch", "arm", "--override-variant", "v7"] := by
  have h := ((archArgs_selector
      { sourceImage := "s", destImage := "d", architecture := "linux/arm/v7" }
      "s" "d").2.1 (by decide)).2.1 (by decide)
  refine ⟨by decide, ?_⟩
  rw [show normalizeArch "linux/arm/v7" =
        normalizeArch (SyncRequest.architecture
          { sourceImage := "s", destImage := "d", architecture := "linux/arm/v7" }) from rfl]
  rw [h]
  decide

theorem wrap64_eq_self (x : Int) (h1 : -9223372036854775808 ≤ x)
    (h2 : x ≤ 9223372036854775807) : wrap64 x = x := by
  unfold wrap64 int64Min
  omega

/-- C3 counterexample: a requested pageSize of 0 yields an effective
pageSize of 20 (the default), not 1 as the claim states; and a page so far
beyond the end that Go's start = (page-1)*pageSize wraps below 0 in int64
(page = 2^62+1, pageSize = 2 gives start = -2^63) makes the slice
expression filtered[start:end] panic - the request fails with an error
instead of returning an empty slice. -/
theorem listTasks_pageSize_counterexample :
    listTasks [] { page := 1, pageSize := 0 }
      = some { total := 0, page := 1, pageSize := 20, tasks := [] } ∧
    Option.map TaskListResponse.pageSize (listTasks [] { page := 1, pageSize := 0 })
      ≠ some 1 ∧
    listTasks [] { page := 4611686018427387905, pageSize := 2 } = none := by
  refine ⟨by decide, by decide, by decide⟩

/-- C3 (amended): for a page number representable in Go's int64 (as every
bound query value is), the effective pageSize is 100 when the request
exceeds 100 and the default 20 (not 1) when the request is below 1, and a
page number below 1 is treated as 1; whenever page*pageSize does not
overflow int64, the handler returns the window of the filtered, sorted
list starting at (page-1)*pageSize of length pageSize, clamped to the
list, and a page beyond the end yields an empty slice; but when the
wrapping int64 computation of (page-1)*pageSize lands below 0, the slice
expression panics and the request fails with an error instead. -/
theorem listTasks_pagination (tasks : List SyncTask) (req : TaskListRequest)
    (hpage : int64Min ≤ req.page ∧ req.page ≤ int64Max) :
    (∀ resp, listTasks tasks req = some resp →
      resp.page = effPage req.page ∧
      resp.pageSize = effPageSize req.pageSize ∧
      resp.total = ((filteredSorted tasks req).length : Int)) ∧
    (effPage req.page * effPageSize req.pageSize ≤ int64Max →
      listTasks tasks req = some
        { total := ((filteredSorted tasks req).length : Int),
          page := effPage req.page,
          pageSize := effPageSize req.pageSize,
          tasks := (((filteredSorted tasks req).drop
              ((effPage req.page - 1) * effPageSize req.pageSize).toNat).take
            (effPageSize req.pageSize).toNat).map toSummary }) ∧
    (effPage req.page * effPageSize req.pageSize ≤ int64Max →
      ((filteredSorted tasks req).length : Int) ≤
        (effPage req.page - 1) * effPageSize req.pageSize →
      ∃ resp, listTasks tasks req = some resp ∧ resp.tasks = []) ∧
    (wrap64 ((effPage req.page - 1) * effPageSize req.pageSize) < 0 →
      listTasks tasks req = none) := by
  have hreq2 : req.page ≤ 9223372036854775807 := hpage.2
  have hsize : (if 100 < (if req.pageSize < 1 then 20 else req.pageSize) then 100
      else if req.pageSize < 1 then 20 else req.pageSize) = effPageSize req.pageSize := by
    unfold effPageSize
    split_ifs <;> omega
  have hpage1 : 1 ≤ effPage req.page := by
    unfold effPage; split_ifs <;> omega
  have hpage2 : effPage req.page ≤ 9223372036854775807 := by
    unfold effPage; split_ifs <;> omega
  have hsize1 : 1 ≤ effPageSize req.pageSize := by
    unfold effPageSize; split_ifs <;> omega
  set S := filteredSorted tasks req with hS
  set p := effPage req.page with hp
  set s := effPageSize req.pageSize with hs
  have hmul0 : 0 ≤ (p - 1) * s := mul_nonneg (by omega) (by omega)
  have hmono : (p - 1) * s ≤ p * s := mul_le_mul_of_nonneg_right (by omega) (by omega)
  have hsum : (p - 1) * s + s = p * s := by ring
  have w1 : wrap64 (p - 1) = p - 1 := wrap64_eq_self _ (by omega) (by omega)
  have hecho : ∀ resp, listTasks tasks req = some resp →
      resp.page = p ∧ resp.pageSize = s ∧ resp.total = (S.length : Int) := by
    intro resp h
    simp only [listTasks] at h
    rw [hsize] at h
    rw [show (if req.page < 1 then 1 else req.page) = p from rfl] at h
    rw [show sortTasks (if req.status ≠ "" then
          tasks.filter (fun t => t.status == req.status) else tasks)
          req.sortBy req.sortOrder = S from rfl] at h
    split at h
    all_goals split at h
    all_goals split at h
    all_goals first
      | exact Option.noConfusion h
      | (rw [Option.some.injEq] at h; subst h; exact ⟨rfl, rfl, rfl⟩)
  have hok : p * s ≤ 9223372036854775807 →
      listTasks tasks req = some
        { total := (S.length : Int), page := p, pageSize := s,
          tasks := ((S.drop ((p - 1) * s).toNat).take s.toNat).map toSummary } := by
    intro hov
    have w2 : wrap64 ((p - 1) * s) = (p - 1) * s := wrap64_eq_self _ (by omega) (by omega)
    have w3 : wrap64 ((p - 1) * s + s) = (p - 1) * s + s :=
      wrap64_eq_self _ (by omega) (by omega)
    simp only [listTasks]
    rw [hsize]
    rw [show (if req.page < 1 then 1 else req.page) = p from rfl]
    rw [show sortTasks (if req.status ≠ "" then
          tasks.filter (fun t => t.status == req.status) else tasks)
          req.sortBy req.sortOrder = S from rfl]
    rw [w1, w2, w3]
    by_cases hbig : (S.length : Int) < (p - 1) * s
    · rw [if_pos hbig, if_pos (show (S.length : Int) < (p - 1) * s + s by omega)]
      have hguard : (0 : Int) ≤ (S.length : Int) ∧ (S.length : Int) ≤ (S.length : Int) ∧
          (S.length : Int) ≤ (S.length : Int) :=
        ⟨Int.natCast_nonneg _, le_refl _, le_refl _⟩
      rw [if_pos hguard]
      refine congrArg some ?_
      have hdropS : S.drop ((S.length : Int)).toNat = [] :=
        List.drop_eq_nil_of_le (by omega)
      have hdropW : S.drop ((p - 1) * s).toNat = [] :=
        List.drop_eq_nil_of_le (by omega)
      rw [hdropS, hdropW]
      simp
    · rw [if_neg hbig]
      by_cases hend : (S.length : Int) < (p - 1) * s + s
      · rw [if_pos hend]
        have hguard : (0 : Int) ≤ (p - 1) * s ∧ (p - 1) * s ≤ (S.length : Int) ∧
            (S.length : Int) ≤ (S.length : Int) :=
          ⟨hmul0, by omega, le_refl _⟩
        rw [if_pos hguard]
        refine congrArg some ?_
        have hlen : (S.drop ((p - 1) * s).toNat).length
            = S.length - ((p - 1) * s).toNat := by simp
        rw [List.take_of_length_le (by omega), List.take_of_length_le (by omega)]
      · rw [if_neg hend]
        have hguard : (0 : Int) ≤ (p - 1) * s ∧ (p - 1) * s ≤ (p - 1) * s + s ∧
            (p - 1) * s + s ≤ (S.length : Int) :=
          ⟨hmul0, by omega, by omega⟩
        rw [if_pos hguard]
        refine congrArg some ?_
        have harg : ((p - 1) * s + s).toNat - ((p - 1) * s).toNat = s.toNat := by omega
        rw [harg]
  have hpanic : wrap64 ((p - 1) * s) < 0 → listTasks tasks req = none := by
    intro hneg
    simp only [listTasks]
    rw [hsize]
    rw [show (if req.page < 1 then 1 else req.page) = p from rfl]
    rw [show sortTasks (if req.status ≠ "" then
          tasks.filter (fun t => t.status == req.status) else tasks)
          req.sortBy req.sortOrder = S from rfl]
    rw [w1]
    rw [if_neg (show ¬ (S.length : Int) < wrap64 ((p - 1) * s) from by omega)]
    split
    all_goals split
    any_goals rfl
    all_goals rename_i hg2
    all_goals exact absurd hg2.1 (not_le.mpr hneg)
  refine ⟨hecho, fun hov => hok hov, ?_, hpanic⟩
  intro hov hbeyond
  refine ⟨_, hok hov, ?_⟩
  show ((S.drop ((p - 1) * s).toNat).take s.toNat).map toSummary = []
  rw [List.drop_eq_nil_of_le (by omega)]
  simp

/-- C3 witness: 3 tasks, page 4, pageSize 10 is past the end without int64
overflow and yields the empty slice; pageSize 1000 is clamped to 100. -/
theorem listTasks_pagination_witness :
    Option.map (fun r => (r.total, r.page, r.pageSize, r.tasks))
        (listTasks (List.replicate 3 taskA) { page := 4, pageSize := 10 })
      = some (3, 4, 10, []) ∧
    Option.map TaskListResponse.pageSize (listTasks [] { page := 1, pageSize := 1000 })
      = some 100 := by
  constructor
  · rw [(listTasks_pagination (List.replicate 3 taskA) { page := 4, pageSize := 10 }
      (by decide)).2.1 (by decide)]
    decide
  · rw [(listTasks_pagination [] { page := 1, pageSize := 1000 } (by decide)).2.1
      (by decide)]
    decide

theorem getD_mem_of_lt (l : List String) (i : Nat) (h : i < l.length) :
    l.getD i "" ∈ l := by
  rw [List.getD_eq_getElem l "" h]
  exact List.getElem_mem h

theorem userPass_ne (u p f : String) (hf : ':' ∉ f.data) : u ++ ":" ++ p ≠ f := by
  intro h
  apply hf
  rw [← h, String.data_append, String.data_append]
  have hc : ':' ∈ (":".data) := by decide
  exact List.mem_append_left _ (List.mem_append_right _ hc)

theorem dockerRef_ne (s f : String) (hf : f.data.head? ≠ some 'd') :
    "docker://" ++ s ≠ f := by
  intro h
  apply hf
  rw [← h, String.data_append]
  rfl

theorem flag_not_mem_archArgs (arch φ : String)
    (hdash : goHasPrefix φ "-" = true)
    (h1 : φ ≠ "--all") (h2 : φ ≠ "--override-os") (h3 : φ ≠ "--override-arch")
    (h4 : φ ≠ "--override-variant")
    (harch : ∀ q ∈ goSplit arch '/', goHasPrefix q "-" = false) :
    φ ∉ archArgsGo arch := by
  intro hmem
  unfold archArgsGo at hmem
  by_cases hall : arch = "all"
  · rw [if_pos hall] at hmem
    exact h1 (by simpa using hmem)
  · rw [if_neg hall] at hmem
    by_cases hempty : arch ≠ ""
    · rw [if_pos hempty] at hmem
      simp only at hmem
      by_cases hlen : 2 ≤ (goSplit arch '/').length
      · rw [if_pos hlen] at hmem
        have hval : ∀ i, i < (goSplit arch '/').length →
            φ ≠ (goSplit arch '/').getD i "" := by
          intro i hi he
          have hq := harch _ (getD_mem_of_lt _ i hi)
          rw [← he] at hq
          rw [hdash] at hq
          cases hq
        rcases List.mem_append.mp hmem with hmem1 | hmem2
        · rcases hmem1 with _ | ⟨_, hmem1⟩
          · exact h2 rfl
          rcases hmem1 with _ | ⟨_, hmem1⟩
          · exact hval 0 (by omega) rfl
          rcases hmem1 with _ | ⟨_, hmem1⟩
          · exact h3 rfl
          rcases hmem1 with _ | ⟨_, hmem1⟩
          · exact hval 1 (by omega) rfl
          cases hmem1
        · by_cases hlen3 : 2 < (goSplit arch '/').length
          · rw [if_pos hlen3] at hmem2
            rcases hmem2 with _ | ⟨_, hmem2⟩
            · exact h4 rfl
            rcases hmem2 with _ | ⟨_, hmem2⟩
            · exact hval 2 (by omega) rfl
            cases hmem2
          · rw [if_neg hlen3] at hmem2
            cases hmem2
      · rw [if_neg hlen] at hmem
        cases hmem
    · rw [if_neg hempty] at hmem
      cases hmem

/-- C7: the built command contains the source credential flag exactly when
both the source username and password are non-empty, and independently the
destination credential flag exactly when both destination credentials are
non-empty (over selectors whose components are not option-like, as every
real platform selector is). -/
theorem buildSkopeoArgs_creds_iff (arch src dst : String) (req : SyncRequest)
    (harch : ∀ q ∈ goSplit arch '/', goHasPrefix q "-" = false) :
    ("--src-creds" ∈ (buildSkopeoArgs arch src dst req).1 ↔
        req.sourceUsername ≠ "" ∧ req.sourcePassword ≠ "") ∧
    ("--dest-creds" ∈ (buildSkopeoArgs arch src dst req).1 ↔
        req.destUsername ≠ "" ∧ req.destPassword ≠ "") := by
  have hbase : ∀ φ : String, φ ≠ "copy" →
      (∀ b : Bool, φ ≠ "--src-tls-verify=" ++ goBool b) →
      (∀ b : Bool, φ ≠ "--dest-tls-verify=" ++ goBool b) →
      φ ∉ (["copy", "--src-tls-verify=" ++ goBool (req.srcTLSVerify.getD true),
            "--dest-tls-verify=" ++ goBool (req.destTLSVerify.getD true)] : List String) := by
    intro φ hc ht1 ht2 hmem
    rcases hmem with _ | ⟨_, hmem⟩
    · exact hc rfl
    rcases hmem with _ | ⟨_, hmem⟩
    · exact ht1 _ rfl
    rcases hmem with _ | ⟨_, hmem⟩
    · exact ht2 _ rfl
    cases hmem
  have hrefs : ∀ φ : String, φ.data.head? ≠ some 'd' →
      φ ∉ (["docker://" ++ src, "docker://" ++ dst] : List String) := by
    intro φ hφ hmem
    rcases hmem with _ | ⟨_, hmem⟩
    · exact hφ (by rw [String.data_append]; rfl)
    rcases hmem with _ | ⟨_, hmem⟩
    · exact hφ (by rw [String.data_append]; rfl)
    cases hmem
  have hC : ∀ φ : String, (φ ∈ (buildSkopeoArgs arch src dst req).1 ↔
      (((φ ∈ (["copy", "--src-tls-verify=" ++ goBool (req.srcTLSVerify.getD true),
          "--dest-tls-verify=" ++ goBool (req.destTLSVerify.getD true)] : List String) ∨
        φ ∈ (if req.sourceUsername ≠ "" ∧ req.sourcePassword ≠ "" then
            ["--src-creds", req.sourceUsername ++ ":" ++ req.sourcePassword] else [])) ∨
        φ ∈ (if req.destUsername ≠ "" ∧ req.destPassword ≠ "" then
            ["--dest-creds", req.destUsername ++ ":" ++ req.destPassword] else [])) ∨
        φ ∈ archArgsGo arch) ∨
        φ ∈ (["docker://" ++ src, "docker://" ++ dst] : List String)) := by
    intro φ
    simp only [buildSkopeoArgs]
    simp only [List.mem_append]
  constructor
  · constructor
    · intro hmem
      by_cases hcond : req.sourceUsername ≠ "" ∧ req.sourcePassword ≠ ""
      · exact hcond
      · exfalso
        rcases (hC "--src-creds").mp hmem with (((hm | hm) | hm) | hm) | hm
        · exact hbase "--src-creds" (by decide) (by intro b; cases b <;> decide)
            (by intro b; cases b <;> decide) hm
        · rw [if_neg hcond] at hm
          cases hm
        · by_cases hd : req.destUsername ≠ "" ∧ req.destPassword ≠ ""
          · rw [if_pos hd] at hm
            rcases List.mem_cons.mp hm with he | hm
            · exact absurd he (by decide)
            rcases List.mem_cons.mp hm with he | hm
            · exact userPass_ne req.destUsername req.destPassword "--src-creds"
                (by decide) he.symm
            cases hm
          · rw [if_neg hd] at hm
            cases hm
        · exact flag_not_mem_archArgs arch "--src-creds" (by decide) (by decide)
            (by decide) (by decide) (by decide) harch hm
        · exact hrefs "--src-creds" (by decide) hm
    · intro hcond
      apply (hC "--src-creds").mpr
      left; left; left; right
      rw [if_pos hcond]
      exact List.mem_cons_self _ _
  · constructor
    · intro hmem
      by_cases hcond : req.destUsername ≠ "" ∧ req.destPassword ≠ ""
      · exact hcond
      · exfalso
        rcases (hC "--dest-creds").mp hmem with (((hm | hm) | hm) | hm) | hm
        · exact hbase "--dest-creds" (by decide) (by intro b; cases b <;> decide)
            (by intro b; cases b <;> decide) hm
        · by_cases hs : req.sourceUsername ≠ "" ∧ req.sourcePassword ≠ ""
          · rw [if_pos hs] at hm
            rcases List.mem_cons.mp hm with he | hm
            · exact absurd he (by decide)
            rcases List.mem_cons.mp hm with he | hm
            · exact userPass_ne req.sourceUsername req.sourcePassword "--dest-creds"
                (by decide) he.symm
            cases hm
          · rw [if_neg hs] at hm
            cases hm
        · rw [if_neg hcond] at hm
          cases hm
        · exact flag_not_mem_archArgs arch "--dest-creds" (by decide) (by decide)
            (by decide) (by decide) (by decide) harch hm
        · exact hrefs "--dest-creds" (by decide) hm
    · intro hcond
      apply (hC "--dest-creds").mpr
      left; left; right
      rw [if_pos hcond]
      exact List.mem_cons_self _ _

/-- C7 witness: a request with only a source username emits no source
credential flag, while complete destination credentials do emit theirs. -/
theorem buildSkopeoArgs_creds_iff_witness :
    ¬ ("--src-creds" ∈ (buildSkopeoArgs "all" "s" "d"
        { sourceImage := "s", destImage := "d", sourceUsername := "alice",
          destUsername := "bob", destPassword := "pw" }).1) ∧
    "--dest-creds" ∈ (buildSkopeoArgs "all" "s" "d"
        { sourceImage := "s", destImage := "d", sourceUsername := "alice",
          destUsername := "bob", destPassword := "pw" }).1 := by
  have h := buildSkopeoArgs_creds_iff "all" "s" "d"
      { sourceImage := "s", destImage := "d", sourceUsername := "alice",
        destUsername := "bob", destPassword := "pw" }
      (by decide)
  constructor
  · intro hmem
    have := h.1.mp hmem
    exact absurd this.2 (by decide)
  · exact h.2.mpr (by constructor <;> decide)

theorem sanitizeArgs_cons_skip (a : String) (rest : List String) :
    sanitizeArgs (a :: rest) true = "***:***" :: sanitizeArgs rest false := by
  simp only [sanitizeArgs]
  split_ifs with h <;> simp_all

theorem sanitizeArgs_cons_flag (rest : List String) :
    sanitizeArgs ("--src-creds" :: rest) false =
      "--src-creds" :: sanitizeArgs rest true := by
  have hg1 : goHasPrefix "--src-creds" "--src-creds=" = false := by decide
  have hg2 : goHasPrefix "--src-creds" "--dest-creds=" = false := by decide
  simp only [sanitizeArgs]
  split_ifs with h1 h2 h3 <;> simp_all

theorem sanitizeArgs_cons_flag_dest (rest : List String) :
    sanitizeArgs ("--dest-creds" :: rest) false =
      "--dest-creds" :: sanitizeArgs rest true := by
  have hg1 : goHasPrefix "--dest-creds" "--src-creds=" = false := by decide
  have hg2 : goHasPrefix "--dest-creds" "--dest-creds=" = false := by decide
  simp only [sanitizeArgs]
  split_ifs with h1 h2 h3 <;> simp_all

theorem sanitizeArgs_cons_plain (a : String) (rest : List String)
    (h1 : goHasPrefix a "--src-creds=" = false)
    (h2 : goHasPrefix a "--dest-creds=" = false)
    (h3 : a ≠ "--creds") (h4 : a ≠ "--src-creds") (h5 : a ≠ "--dest-creds") :
    sanitizeArgs (a :: rest) false = a :: sanitizeArgs rest false := by
  simp only [sanitizeArgs]
  split_ifs with g1 g2 g3 <;> simp_all

/-- C6: the Executing log line never depends on the raw credential values:
two requests that agree on everything except their (non-empty) usernames
and passwords produce the identical sanitized command line, each credential
argument masked. -/
theorem sanitizeCommand_masks_credentials (arch src dst : String)
    (r1 r2 : SyncRequest)
    (htls1 : r1.srcTLSVerify = r2.srcTLSVerify)
    (htls2 : r1.destTLSVerify = r2.destTLSVerify)
    (h1 : r1.sourceUsername ≠ "") (h2 : r1.sourcePassword ≠ "")
    (h3 : r1.destUsername ≠ "") (h4 : r1.destPassword ≠ "")
    (h5 : r2.sourceUsername ≠ "") (h6 : r2.sourcePassword ≠ "")
    (h7 : r2.destUsername ≠ "") (h8 : r2.destPassword ≠ "") :
    "Executing: " ++ sanitizeCommand (buildSkopeoArgs arch src dst r1).1 =
      "Executing: " ++ sanitizeCommand (buildSkopeoArgs arch src dst r2).1 := by
  have harg : ∀ r : SyncRequest, r.sourceUsername ≠ "" → r.sourcePassword ≠ "" →
      r.destUsername ≠ "" → r.destPassword ≠ "" →
      (buildSkopeoArgs arch src dst r).1 =
        "copy" :: ("--src-tls-verify=" ++ goBool (r.srcTLSVerify.getD true))
          :: ("--dest-tls-verify=" ++ goBool (r.destTLSVerify.getD true))
          :: "--src-creds" :: (r.sourceUsername ++ ":" ++ r.sourcePassword)
          :: "--dest-creds" :: (r.destUsername ++ ":" ++ r.destPassword)
          :: (archArgsGo arch ++ ["docker://" ++ src, "docker://" ++ dst]) := by
    intro r hu hp hdu hdp
    simp only [buildSkopeoArgs]
    rw [if_pos ⟨hu, hp⟩, if_pos ⟨hdu, hdp⟩]
    simp
  have hsan : ∀ (b1 b2 : Bool) (v1 v2 : String) (tail : List String),
      sanitizeArgs ("copy" :: ("--src-tls-verify=" ++ goBool b1)
          :: ("--dest-tls-verify=" ++ goBool b2)
          :: "--src-creds" :: v1 :: "--dest-creds" :: v2 :: tail) false =
        "copy" :: ("--src-tls-verify=" ++ goBool b1)
          :: ("--dest-tls-verify=" ++ goBool b2)
          :: "--src-creds" :: "***:***" :: "--dest-creds" :: "***:***"
          :: sanitizeArgs tail false := by
    intro b1 b2 v1 v2 tail
    cases b1 <;> cases b2 <;>
      rw [sanitizeArgs_cons_plain _ _ (by decide) (by decide) (by decide) (by decide)
            (by decide),
          sanitizeArgs_cons_plain _ _ (by decide) (by decide) (by decide) (by decide)
            (by decide),
          sanitizeArgs_cons_plain _ _ (by decide) (by decide) (by decide) (by decide)
            (by decide),
          sanitizeArgs_cons_flag, sanitizeArgs_cons_skip,
          sanitizeArgs_cons_flag_dest, sanitizeArgs_cons_skip]
  rw [harg r1 h1 h2 h3 h4, harg r2 h5 h6 h7 h8]
  unfold sanitizeCommand
  rw [hsan, hsan, htls1, htls2]

/-- C6 witness: two concrete requests differing only in credentials produce
the identical Executing line. -/
theorem sanitizeCommand_masks_credentials_witness :
    "Executing: " ++ sanitizeCommand (buildSkopeoArgs "all" "s" "d" reqSample).1 =
      "Executing: " ++ sanitizeCommand (buildSkopeoArgs "all" "s" "d"
        { reqSample with sourceUsername := "eve", sourcePassword := "stolen",
                         destUsername := "mallory", destPassword := "hunter2" }).1 :=
  sanitizeCommand_masks_credentials "all" "s" "d" reqSample
    { reqSample with sourceUsername := "eve", sourcePassword := "stolen",
                     destUsername := "mallory", destPassword := "hunter2" }
    rfl rfl (by decide) (by decide) (by decide) (by decide)
    (by decide) (by decide) (by decide) (by decide)

theorem readStringNL_rest_lt (cs : List Char)
    (h : (readStringNL cs).2.2 = false) : (readStringNL cs).2.1.length < cs.length := by
  induction cs with
  | nil => simp [readStringNL] at h
  | cons c cs ih =>
    by_cases hc : c = '\n'
    · simp [readStringNL, hc]
    · simp only [readStringNL, if_neg hc] at h ⊢
      exact Nat.lt_succ_of_lt (ih h)

theorem readStringNL_eof (cs : List Char) (h : (readStringNL cs).2.2 = true) :
    (readStringNL cs).1 = cs ∧ splitNL cs = ([], cs) := by
  induction cs with
  | nil => exact ⟨rfl, rfl⟩
  | cons c cs ih =>
    by_cases hc : c = '\n'
    · simp [readStringNL, hc] at h
    · simp only [readStringNL, if_neg hc] at h ⊢
      obtain ⟨ih1, ih2⟩ := ih h
      refine ⟨by rw [ih1], ?_⟩
      simp only [splitNL, if_neg hc, ih2]

theorem readStringNL_line (cs : List Char) (h : (readStringNL cs).2.2 = false) :
    (readStringNL cs).1 = (readStringNL cs).1.dropLast ++ ['\n'] ∧
    splitNL cs = ((readStringNL cs).1.dropLast :: (splitNL (readStringNL cs).2.1).1,
                  (splitNL (readStringNL cs).2.1).2) := by
  induction cs with
  | nil => simp [readStringNL] at h
  | cons c cs ih =>
    by_cases hc : c = '\n'
    · subst hc
      simp [readStringNL, splitNL]
    · simp only [readStringNL, if_neg hc] at h ⊢
      obtain ⟨ih1, ih2⟩ := ih h
      have hdrop : (c :: (readStringNL cs).1).dropLast = c :: (readStringNL cs).1.dropLast := by
        conv_lhs => rw [ih1]
        rw [show c :: ((readStringNL cs).1.dropLast ++ ['\n'])
              = (c :: (readStringNL cs).1.dropLast) ++ ['\n'] from rfl]
        exact List.dropLast_concat
      refine ⟨?_, ?_⟩
      · rw [hdrop]
        conv_lhs => rw [ih1]
        rfl
      · simp only [splitNL, if_neg hc, ih2, hdrop]

theorem trimSpace_concat_newline (l : List Char) :
    trimSpace (String.mk (l ++ ['\n'])) = trimSpace (String.mk l) := by
  unfold trimSpace trimChars
  rw [show (String.mk (l ++ ['\n'])).data = l ++ ['\n'] from rfl,
      show (String.mk l).data = l from rfl]
  rw [List.dropWhile_append]
  by_cases hl : (l.dropWhile isSpace).isEmpty
  · rw [if_pos hl]
    rw [List.isEmpty_iff] at hl
    rw [hl]
    rfl
  · rw [if_neg hl]
    rw [List.reverse_append]
    rw [show (['\n'] : List Char).reverse = ['\n'] from rfl]
    rw [show ('\n' :: []) ++ (l.dropWhile isSpace).reverse
          = '\n' :: (l.dropWhile isSpace).reverse from rfl]
    rw [List.dropWhile_cons]
    rw [if_pos (by decide)]

theorem readOutputLoop_spec (fuel : Nat) :
    ∀ cs : List Char, cs.length < fuel → readOutputLoop fuel cs = readLinesSpec cs := by
  induction fuel with
  | zero => intro cs h; exact absurd h (Nat.not_lt_zero _)
  | succ fuel ih =>
    intro cs hlen
    show (let r := readStringNL cs
          if r.2.2 then
            if r.1 ≠ [] then [trimSpace (String.mk r.1)] else []
          else
            let t := trimSpace (String.mk r.1)
            (if t ≠ "" then [t] else []) ++ readOutputLoop fuel r.2.1) = readLinesSpec cs
    by_cases h : (readStringNL cs).2.2 = true
    · obtain ⟨h1, h2⟩ := readStringNL_eof cs h
      simp only [h, if_true, h1]
      unfold readLinesSpec
      rw [h2]
      simp
    · have hfalse : (readStringNL cs).2.2 = false := by
        rw [Bool.eq_false_iff]; exact h
      obtain ⟨h1, h2⟩ := readStringNL_line cs hfalse
      have hrest : (readStringNL cs).2.1.length < fuel := by
        have := readStringNL_rest_lt cs hfalse
        omega
      simp only [hfalse, if_false, Bool.false_eq_true]
      rw [ih _ hrest]
      unfold readLinesSpec
      rw [h2]
      simp only [List.map_cons, List.filter_cons]
      have htrim : trimSpace (String.mk (readStringNL cs).1)
          = trimSpace (String.mk ((readStringNL cs).1.dropLast)) := by
        conv_lhs => rw [h1]
        exact trimSpace_concat_newline _
      rw [htrim]
      by_cases ht : trimSpace (String.mk ((readStringNL cs).1.dropLast)) ≠ ""
      · rw [if_pos ht]
        have : (decide ¬ trimSpace (String.mk ((readStringNL cs).1.dropLast)) = "") = true := by
          simpa using ht
        rw [this]
        simp
      · rw [if_neg ht]
        have : (decide ¬ trimSpace (String.mk ((readStringNL cs).1.dropLast)) = "") = false := by
          simpa using ht
        rw [this]
        simp

/-- C4 counterexample: the stream a,newline,newline,b,newline has the three
complete lines a, empty, b, but readOutput appends only a and b: the empty
line is not logged. -/
theorem readOutput_counterexample :
    allStreamLines ("a\n\nb\n".data) = ["a", "", "b"] ∧
    readOutputLogs ("a\n\nb\n".data) = ["a", "b"] ∧
    readOutputLogs ("a\n\nb\n".data) ≠ allStreamLines ("a\n\nb\n".data) := by
  refine ⟨by decide, by decide, by decide⟩

/-- C4 (amended): for every stream, readOutput appends exactly the
whitespace-trimmed complete lines that are non-empty after trimming, in
order, followed by the trimmed trailing partial line whenever it is
non-empty before trimming; blank or whitespace-only complete lines are
skipped, so the log contains every non-blank line of the process output but
not every line. -/
theorem readOutput_logs_lines (cs : List Char) :
    readOutputLogs cs = readLinesSpec cs :=
  readOutputLoop_spec (cs.length + 1) cs (Nat.lt_succ_self _)

theorem timeoutMsg_ne_empty (t : String) :
    "command timeout after " ++ t ++ "s" ≠ "" := by
  intro h
  have hd := congrArg String.data h
  rw [String.data_append, String.data_append] at hd
  simp at hd

theorem timeout_marker_infix (t : String) :
    "timeout".data <:+: ("command timeout after " ++ t ++ "s").data := by
  refine ⟨"command ".data, (" after " ++ t ++ "s").data, ?_⟩
  simp only [String.data_append, ← List.append_assoc]
  congr 2

/-- C5: a job whose deadline expires is finalized as Failed with the
distinguishable timeout error message (which contains the timeout marker);
every run finalizes to a terminal state, Failed exactly on the error paths,
and every failed run carries a non-empty error output together with a set
EndTime; a run that merely exited non-zero carries the process wait error
instead. -/
theorem executeSync_failure_modes (timeout : Int) (env : ExecEnv) (req : SyncRequest)
    (t0 : SyncTask)
    (hm1 : env.stdoutPipeErrMsg ≠ "") (hm2 : env.stderrPipeErrMsg ≠ "")
    (hm3 : env.startErrMsg ≠ "") (hm4 : env.waitErrMsg ≠ "") :
    ((executeSync timeout env req t0).1.status = statusFailed ∨
     (executeSync timeout env req t0).1.status = statusCompleted) ∧
    ((executeSync timeout env req t0).1.status = statusFailed ↔
      (env.stdoutPipeOk = false ∨ env.stderrPipeOk = false ∨ env.startOk = false ∨
       env.timedOut = true ∨ env.waitOk = false)) ∧
    ((executeSync timeout env req t0).1.status = statusFailed →
      (executeSync timeout env req t0).1.errorOutput ≠ "" ∧
      (executeSync timeout env req t0).1.endTime = some env.endTimeVal ∧
      isTerminal (executeSync timeout env req t0).1.status = true) ∧
    (env.stdoutPipeOk = true → env.stderrPipeOk = true → env.startOk = true →
      env.timedOut = true →
      (executeSync timeout env req t0).1.errorOutput
        = "command timeout after " ++ toString timeout ++ "s" ∧
      "timeout".data <:+: (executeSync timeout env req t0).1.errorOutput.data) ∧
    (env.stdoutPipeOk = true → env.stderrPipeOk = true → env.startOk = true →
      env.timedOut = false → env.waitOk = false →
      (executeSync timeout env req t0).1.errorOutput = env.waitErrMsg) := by
  cases hso : env.stdoutPipeOk <;> cases hse : env.stderrPipeOk <;>
    cases hst : env.startOk <;> cases hto : env.timedOut <;> cases hwo : env.waitOk <;>
    simp only [executeSync, hso, hse, hst, hto, hwo, handleTaskError, appendAllEv,
      if_pos, if_neg, Bool.false_eq_true, Bool.true_eq_false, if_true, if_false,
      statusFailed, statusCompleted, statusRunning, isTerminal] <;>
    refine ⟨?_, ?_, ?_, ?_, ?_⟩ <;>
    (try simp [hm1, hm2, hm3, hm4, timeoutMsg_ne_empty]) <;>
    (try exact timeout_marker_infix (toString timeout))

/-- C5 witness: with the deadline expired the concrete run is Failed and its
error output is the timeout message. -/
theorem executeSync_failure_modes_witness :
    (executeSync 600 envTimeout reqSample runningTask).1.status = statusFailed ∧
    (executeSync 600 envTimeout reqSample runningTask).1.errorOutput
      = "command timeout after " ++ toString (600 : Int) ++ "s" := by
  have h := executeSync_failure_modes 600 envTimeout reqSample runningTask
    (by decide) (by decide) (by decide) (by decide)
  exact ⟨h.2.1.mpr (by decide),
         (h.2.2.2.1 (by decide) (by decide) (by decide) (by decide)).1⟩

theorem isTerminal_running : isTerminal statusRunning = false := by decide

theorem isTerminal_failed : isTerminal statusFailed = true := by decide

theorem isTerminal_completed : isTerminal statusCompleted = true := by decide

theorem cat_nil (b : Bool) : closesAfterTerminal [] b = true := rfl

theorem cat_addLog (l : String) (r : List Ev) (b : Bool) :
    closesAfterTerminal (Ev.addLog l :: r) b = closesAfterTerminal r b := rfl

theorem cat_update (r : List Ev) (b : Bool) :
    closesAfterTerminal (Ev.update :: r) b = closesAfterTerminal r b := rfl

theorem cat_setEnd (r : List Ev) (b : Bool) :
    closesAfterTerminal (Ev.setEndTime :: r) b = closesAfterTerminal r b := rfl

theorem cat_setStatus (st : String) (r : List Ev) (b : Bool) :
    closesAfterTerminal (Ev.setStatus st :: r) b
      = closesAfterTerminal r (b || isTerminal st) := rfl

theorem cat_close (r : List Ev) (b : Bool) :
    closesAfterTerminal (Ev.closeListeners :: r) b
      = (b && closesAfterTerminal r b) := rfl

theorem cat_addLogs (ls : List String) (r : List Ev) (b : Bool) :
    closesAfterTerminal (ls.map Ev.addLog ++ r) b = closesAfterTerminal r b := by
  induction ls with
  | nil => rfl
  | cons l ls ih => simpa [cat_addLog] using ih

theorem fac_nil (b : Bool) : finalizeAfterClose [] b = true := rfl

theorem fac_addLog (l : String) (r : List Ev) (b : Bool) :
    finalizeAfterClose (Ev.addLog l :: r) b = finalizeAfterClose r b := rfl

theorem fac_update (r : List Ev) (b : Bool) :
    finalizeAfterClose (Ev.update :: r) b = finalizeAfterClose r b := rfl

theorem fac_close (r : List Ev) (b : Bool) :
    finalizeAfterClose (Ev.closeListeners :: r) b = finalizeAfterClose r true := rfl

theorem fac_setStatus (st : String) (r : List Ev) (b : Bool) :
    finalizeAfterClose (Ev.setStatus st :: r) b
      = ((!isTerminal st || b) && finalizeAfterClose r b) := rfl

theorem fac_setEnd (r : List Ev) (b : Bool) :
    finalizeAfterClose (Ev.setEndTime :: r) b = (b && finalizeAfterClose r b) := rfl

theorem fac_addLogs (ls : List String) (r : List Ev) (b : Bool) :
    finalizeAfterClose (ls.map Ev.addLog ++ r) b = finalizeAfterClose r b := by
  induction ls with
  | nil => rfl
  | cons l ls ih => simpa [fac_addLog] using ih

theorem countClose_nil : countClose [] = 0 := rfl

theorem countClose_addLog (l : String) (r : List Ev) :
    countClose (Ev.addLog l :: r) = countClose r := by
  simp [countClose, List.countP_cons]

theorem countClose_update (r : List Ev) :
    countClose (Ev.update :: r) = countClose r := by
  simp [countClose, List.countP_cons]

theorem countClose_setEnd (r : List Ev) :
    countClose (Ev.setEndTime :: r) = countClose r := by
  simp [countClose, List.countP_cons]

theorem countClose_setStatus (st : String) (r : List Ev) :
    countClose (Ev.setStatus st :: r) = countClose r := by
  simp [countClose, List.countP_cons]

theorem countClose_close (r : List Ev) :
    countClose (Ev.closeListeners :: r) = countClose r + 1 := by
  simp [countClose, List.countP_cons]

theorem countClose_addLogs (ls : List String) (r : List Ev) :
    countClose (ls.map Ev.addLog ++ r) = countClose r := by
  induction ls with
  | nil => rfl
  | cons l ls ih => simpa [countClose_addLog] using ih

theorem cts_nil : countTerminalSet [] = 0 := rfl

theorem cts_addLog (l : String) (r : List Ev) :
    countTerminalSet (Ev.addLog l :: r) = countTerminalSet r := by
  simp [countTerminalSet, List.countP_cons]

theorem cts_update (r : List Ev) :
    countTerminalSet (Ev.update :: r) = countTerminalSet r := by
  simp [countTerminalSet, List.countP_cons]

theorem cts_setEnd (r : List Ev) :
    countTerminalSet (Ev.setEndTime :: r) = countTerminalSet r := by
  simp [countTerminalSet, List.countP_cons]

theorem cts_close (r : List Ev) :
    countTerminalSet (Ev.closeListeners :: r) = countTerminalSet r := by
  simp [countTerminalSet, List.countP_cons]

theorem cts_setStatus (st : String) (r : List Ev) :
    countTerminalSet (Ev.setStatus st :: r)
      = countTerminalSet r + (if isTerminal st then 1 else 0) := by
  simp only [countTerminalSet, List.countP_cons]

theorem cts_addLogs (ls : List String) (r : List Ev) :
    countTerminalSet (ls.map Ev.addLog ++ r) = countTerminalSet r := by
  induction ls with
  | nil => rfl
  | cons l ls ih => simpa [cts_addLog] using ih

/-- C1 counterexample: on a concrete successful run, CloseAllLogListeners
fires exactly once but no terminal setStatus precedes it: the executor
closes the listener channels strictly before it sets the terminal status
and EndTime. -/
theorem close_before_terminal_counterexample :
    ¬ (countClose ((executeSync 600 envOk reqSample runningTask).2) = 1 ∧
       closesAfterTerminal ((executeSync 600 envOk reqSample runningTask).2) false
         = true) := by
  decide

/-- C1 (amended): every run (the task exists; both pipe creations, the
start, the wait and the deadline modelled by env) performs exactly one
terminal setStatus; CloseAllLogListeners fires exactly once when the
process was started and not at all on pipe-creation or start failure; on
the started path the close strictly precedes the terminal status and the
EndTime write (never after), and on failure paths the task is finalized
without any close. -/
theorem executeSync_close_ordering (timeout : Int) (env : ExecEnv)
    (req : SyncRequest) (t0 : SyncTask) :
    countTerminalSet ((executeSync timeout env req t0).2) = 1 ∧
    countClose ((executeSync timeout env req t0).2) =
      (if env.stdoutPipeOk && env.stderrPipeOk && env.startOk then 1 else 0) ∧
    closesAfterTerminal ((executeSync timeout env req t0).2) false =
      (if env.stdoutPipeOk && env.stderrPipeOk && env.startOk then false else true) ∧
    finalizeAfterClose ((executeSync timeout env req t0).2) false =
      (if env.stdoutPipeOk && env.stderrPipeOk && env.startOk then true else false) := by
  cases hso : env.stdoutPipeOk <;> cases hse : env.stderrPipeOk <;>
    cases hst : env.startOk <;> cases hto : env.timedOut <;> cases hwo : env.waitOk <;>
    simp [executeSync, handleTaskError, appendAllEv, hso, hse, hst, hto, hwo,
      cat_nil, cat_addLog, cat_update, cat_setEnd, cat_setStatus, cat_close,
      cat_addLogs, fac_nil, fac_addLog, fac_update, fac_close, fac_setStatus,
      fac_setEnd, fac_addLogs, countClose_nil, countClose_addLog, countClose_update,
      countClose_setEnd, countClose_setStatus, countClose_close, countClose_addLogs,
      cts_nil, cts_addLog, cts_update, cts_setEnd, cts_close, cts_setStatus,
      cts_addLogs, isTerminal_running, isTerminal_failed, isTerminal_completed]

theorem AddLog_keys (t : SyncTask) (l : String) :
    (AddLog t l).logListeners.map Prod.fst = t.logListeners.map Prod.fst := by
  simp only [AddLog, List.map_map]
  apply List.map_congr_left
  intro p _
  by_cases h : p.2.length < chanCap <;> simp [h]

theorem appendAll_invariants (ls : List String) : ∀ t : SyncTask,
    (appendAll t ls).logListeners.map Prod.fst = t.logListeners.map Prod.fst ∧
    (appendAll t ls).nextCh = t.nextCh ∧
    (appendAll t ls).logLines = t.logLines ++ ls := by
  induction ls with
  | nil => intro t; simp [appendAll]
  | cons l ls ih =>
    intro t
    have h := ih (AddLog t l)
    have hstep : appendAll t (l :: ls) = appendAll (AddLog t l) ls := rfl
    rw [hstep]
    refine ⟨h.1.trans (AddLog_keys t l), h.2.1, ?_⟩
    rw [h.2.2]
    simp [AddLog]

theorem find?_last (pre : List (Nat × List String)) (c : Nat) (buf : List String)
    (hpre : ∀ p ∈ pre, p.1 ≠ c) :
    (pre ++ [(c, buf)]).find? (fun p => p.1 == c) = some (c, buf) := by
  induction pre with
  | nil => simp [List.find?]
  | cons p pre ih =>
    have hp : (p.1 == c) = false := by
      simpa using hpre p (List.mem_cons_self p pre)
    rw [List.cons_append]
    simp only [List.find?, hp]
    exact ih (fun q hq => hpre q (List.mem_cons_of_mem p hq))

theorem chanBuf_of_shape (t : SyncTask) (pre : List (Nat × List String)) (c : Nat)
    (buf : List String) (h : t.logListeners = pre ++ [(c, buf)])
    (hpre : ∀ p ∈ pre, p.1 ≠ c) : chanBuf t c = buf := by
  unfold chanBuf
  rw [h, find?_last pre c buf hpre]

theorem AddLog_shape (t : SyncTask) (l : String) (pre : List (Nat × List String))
    (c : Nat) (buf : List String) (h : t.logListeners = pre ++ [(c, buf)])
    (hlt : buf.length < chanCap) :
    ∃ pre2, (AddLog t l).logListeners = pre2 ++ [(c, buf ++ [l])] ∧
      pre2.map Prod.fst = pre.map Prod.fst := by
  refine ⟨pre.map (fun p => if p.2.length < chanCap then (p.1, p.2 ++ [l]) else p), ?_, ?_⟩
  · simp only [AddLog, h, List.map_append]
    congr 1
    simp [hlt]
  · simp only [List.map_map]
    apply List.map_congr_left
    intro p _
    by_cases hp : p.2.length < chanCap <;> simp [hp]

theorem setChanBuf_shape (t : SyncTask) (pre : List (Nat × List String)) (c : Nat)
    (buf newBuf : List String) (h : t.logListeners = pre ++ [(c, buf)])
    (hpre : ∀ p ∈ pre, p.1 ≠ c) :
    (setChanBuf t c newBuf).logListeners = pre ++ [(c, newBuf)] := by
  simp only [setChanBuf, h, List.map_append]
  congr 1
  · conv_rhs => rw [← List.map_id pre]
    apply List.map_congr_left
    intro p hp
    have hne : (p.1 == c) = false := by simpa using hpre p hp
    simp [hne]
  · simp

theorem keys_ne_of_map_eq (pre2 pre : List (Nat × List String)) (c : Nat)
    (hk : pre2.map Prod.fst = pre.map Prod.fst)
    (hpre : ∀ p ∈ pre, p.1 ≠ c) : ∀ p ∈ pre2, p.1 ≠ c := by
  intro p hp
  have : p.1 ∈ pre2.map Prod.fst := List.mem_map_of_mem Prod.fst hp
  rw [hk] at this
  rcases List.mem_map.mp this with ⟨q, hq, he⟩
  rw [← he]
  exact hpre q hq

theorem runTail_ch (ops : List TailOp) : ∀ st : TailState,
    (runTail st ops).ch = st.ch := by
  induction ops with
  | nil => intro st; rfl
  | cons op ops ih =>
    intro st
    have hstep : runTail st (op :: ops) = runTail (stepTail st op) ops := rfl
    rw [hstep, ih]
    cases op with
    | app l => rfl
    | recv =>
      show (stepTail st TailOp.recv).ch = st.ch
      unfold stepTail
      cases chanBuf st.task st.ch <;> rfl

theorem runTail_delivery (c : Nat) (ops : List TailOp) : ∀ (t : SyncTask)
    (recv : List String) (pre : List (Nat × List String)) (buf : List String),
    t.logListeners = pre ++ [(c, buf)] →
    (∀ p ∈ pre, p.1 ≠ c) →
    buf.length + (appsOf ops).length ≤ chanCap →
    (runTail { task := t, ch := c, received := recv } ops).received
        ++ chanBuf (runTail { task := t, ch := c, received := recv } ops).task c
      = recv ++ buf ++ appsOf ops := by
  induction ops with
  | nil =>
    intro t recv pre buf hshape hpre _
    show recv ++ chanBuf t c = recv ++ buf ++ appsOf []
    rw [chanBuf_of_shape t pre c buf hshape hpre]
    simp [appsOf]
  | cons op ops ih =>
    intro t recv pre buf hshape hpre hcap
    have hstep : runTail { task := t, ch := c, received := recv } (op :: ops)
        = runTail (stepTail { task := t, ch := c, received := recv } op) ops := rfl
    cases op with
    | app l =>
      have happs : appsOf (TailOp.app l :: ops) = l :: appsOf ops := rfl
      rw [happs] at hcap
      have hlt : buf.length < chanCap := by
        have := hcap
        simp only [List.length_cons] at this
        omega
      obtain ⟨pre2, hshape2, hk2⟩ := AddLog_shape t l pre c buf hshape hlt
      have hpre2 := keys_ne_of_map_eq pre2 pre c hk2 hpre
      rw [hstep]
      have hsimp : stepTail { task := t, ch := c, received := recv } (TailOp.app l)
          = { task := AddLog t l, ch := c, received := recv } := rfl
      rw [hsimp]
      have := ih (AddLog t l) recv pre2 (buf ++ [l]) hshape2 hpre2
        (by simp only [List.length_append, List.length_cons, List.length_nil]
              at hcap ⊢
            omega)
      rw [this, happs]
      simp
    | recv =>
      have happs : appsOf (TailOp.recv :: ops) = appsOf ops := rfl
      rw [hstep, happs]
      rw [happs] at hcap
      have hcb : chanBuf t c = buf := chanBuf_of_shape t pre c buf hshape hpre
      cases hbuf : buf with
      | nil =>
        subst hbuf
        have hsimp : stepTail { task := t, ch := c, received := recv } TailOp.recv
            = { task := t, ch := c, received := recv } := by
          simp only [stepTail, hcb]
        rw [hsimp]
        exact ih t recv pre [] hshape hpre hcap
      | cons l rest =>
        have hcb2 : chanBuf t c = l :: rest := by rw [hcb, hbuf]
        have hsimp : stepTail { task := t, ch := c, received := recv } TailOp.recv
            = { task := setChanBuf t c rest, ch := c, received := recv ++ [l] } := by
          simp only [stepTail, hcb2]
        rw [hsimp]
        have hshape3 := setChanBuf_shape t pre c buf rest hshape hpre
        have hih := ih (setChanBuf t c rest) (recv ++ [l]) pre rest hshape3 hpre
          (by rw [hbuf] at hcap
              simp only [List.length_cons] at hcap
              omega)
        rw [hih]
        simp

/-- C2 counterexample: the snapshot and the queue registration of the
log-streaming handler are two separate locked steps, and a line appended
between them is observed zero times: starting from a running task with an
empty log, the subscriber that snapshots, misses the concurrent append of x
and then registers, observes only the later y, not x — the claimed
exactly-once property fails. -/
theorem subscribe_not_atomic_counterexample :
    observedLines runningTask ["x"] [TailOp.app "y"] = ["y"] ∧
    observedLines runningTask ["x"] [TailOp.app "y"]
      ≠ runningTask.logLines ++ ["x"] ++ appsOf [TailOp.app "y"] := by
  constructor <;> decide

/-- C2 (amended): the registration itself (AddLogListener) is atomic under
the task lock, but the snapshot is a separate, earlier locked step
(GetLogLines in StreamLogs): the subscriber observes exactly the lines
appended before the snapshot followed by the lines appended after the
registration (each exactly once, in order, while its queue does not
overflow), and every line appended between the snapshot and the
registration is lost to it. -/
theorem streamLogs_snapshot_then_subscribe (t0 : SyncTask) (mid : List String)
    (ops : List TailOp)
    (hfresh : ∀ p ∈ t0.logListeners, p.1 < t0.nextCh)
    (hcap : (appsOf ops).length ≤ chanCap) :
    observedLines t0 mid ops = t0.logLines ++ appsOf ops := by
  unfold observedLines streamLogsRun
  simp only [GetLogLines]
  have hinv := appendAll_invariants mid t0
  have hshape : (AddLogListener (appendAll t0 mid)).2.logListeners
      = (appendAll t0 mid).logListeners ++ [((appendAll t0 mid).nextCh, [])] := rfl
  have hpre : ∀ p ∈ (appendAll t0 mid).logListeners,
      p.1 ≠ (appendAll t0 mid).nextCh := by
    intro p hp
    have hk : p.1 ∈ (appendAll t0 mid).logListeners.map Prod.fst :=
      List.mem_map_of_mem Prod.fst hp
    rw [hinv.1] at hk
    rcases List.mem_map.mp hk with ⟨q, hq, he⟩
    rw [← he, hinv.2.1]
    exact Nat.ne_of_lt (hfresh q hq)
  have hch : (AddLogListener (appendAll t0 mid)).1 = (appendAll t0 mid).nextCh := rfl
  have hres := runTail_delivery (appendAll t0 mid).nextCh ops
      (AddLogListener (appendAll t0 mid)).2 [] (appendAll t0 mid).logListeners []
      hshape hpre (by simpa using hcap)
  have hchf := runTail_ch ops
      { task := (AddLogListener (appendAll t0 mid)).2,
        ch := (AddLogListener (appendAll t0 mid)).1, received := [] }
  rw [hch] at hchf ⊢
  rw [List.append_assoc, hchf, hres]
  simp

/-- C2 amended-theorem witness: with one line appended between snapshot and
registration and two appended after (one of them consumed), the subscriber
observes exactly the post-registration lines. -/
theorem streamLogs_snapshot_then_subscribe_witness :
    observedLines runningTask ["lost"] [TailOp.app "y", TailOp.recv, TailOp.app "z"]
      = runningTask.logLines
          ++ appsOf [TailOp.app "y", TailOp.recv, TailOp.app "z"] :=
  streamLogs_snapshot_then_subscribe runningTask ["lost"]
    [TailOp.app "y", TailOp.recv, TailOp.app "z"]
    (by decide) (by decide)

theorem sweep_zero (s : α → α → Bool) (xs : List α) : sweep s xs 0 = xs := by
  cases xs with
  | nil => rfl
  | cons x xs2 => cases xs2 <;> rfl

theorem sweep_perm (s : α → α → Bool) : ∀ (m : Nat) (xs : List α),
    List.Perm (sweep s xs m) xs := by
  intro m
  induction m with
  | zero => intro xs; rw [sweep_zero]
  | succ m ih =>
    intro xs
    match xs with
    | [] => exact List.Perm.refl []
    | [x] => exact List.Perm.refl [x]
    | x :: y :: rest =>
      show List.Perm (if s x y then y :: sweep s (x :: rest) m
            else x :: sweep s (y :: rest) m) (x :: y :: rest)
      by_cases h : s x y
      · rw [if_pos h]
        exact ((ih (x :: rest)).cons y).trans (List.Perm.swap x y rest)
      · rw [if_neg h]
        exact (ih (y :: rest)).cons x

theorem bubbleFrom_perm (s : α → α → Bool) : ∀ (b : Nat) (xs : List α),
    List.Perm (bubbleFrom s xs b) xs := by
  intro b
  induction b with
  | zero => intro xs; exact List.Perm.refl xs
  | succ b ih =>
    intro xs
    exact (ih (sweep s xs (b + 1))).trans (sweep_perm s (b + 1) xs)

theorem bubbleSortGo_perm (s : α → α → Bool) (xs : List α) :
    List.Perm (bubbleSortGo s xs) xs :=
  bubbleFrom_perm s (xs.length - 1) xs

theorem sweep_spec {κ : Type} [LinearOrder κ] (k : α → κ) :
    ∀ (m : Nat) (xs : List α), m + 1 ≤ xs.length →
    ∃ ys z, sweep (keySwap k) xs m = ys ++ z :: xs.drop (m + 1) ∧
      ys.length = m ∧ List.Perm (ys ++ [z]) (xs.take (m + 1)) ∧
      ∀ a ∈ xs.take (m + 1), k a ≤ k z := by
  intro m
  induction m with
  | zero =>
    intro xs hlen
    match xs, hlen with
    | x :: rest, _ =>
      refine ⟨[], x, ?_, rfl, ?_, ?_⟩
      · rw [sweep_zero]
        rfl
      · simp
      · intro a ha
        simp only [List.take_succ_cons, List.take_zero] at ha
        rw [List.mem_singleton.mp ha]
  | succ m ih =>
    intro xs hlen
    match xs with
    | [] => simp at hlen
    | [x] => simp only [List.length_singleton] at hlen; omega
    | x :: y :: rest =>
      have hlen0 : m + 2 ≤ rest.length + 2 := by simpa using hlen
      by_cases hs : keySwap k x y = true
      · have hxy : k y < k x := by simpa [keySwap] using hs
        obtain ⟨ys, z, h1, h2, h3, h4⟩ := ih (x :: rest) (by simp; omega)
        refine ⟨y :: ys, z, ?_, by simp [h2], ?_, ?_⟩
        · show (if keySwap k x y then y :: sweep (keySwap k) (x :: rest) m
                else x :: sweep (keySwap k) (y :: rest) m)
              = (y :: ys) ++ z :: (x :: y :: rest).drop (m + 2)
          rw [if_pos hs, h1]
          rfl
        · show List.Perm (y :: (ys ++ [z])) ((x :: y :: rest).take (m + 2))
          have ht : (x :: y :: rest).take (m + 2) = x :: y :: rest.take m := by
            simp [List.take_succ_cons]
          have ht2 : (x :: rest).take (m + 1) = x :: rest.take m := by
            simp [List.take_succ_cons]
          rw [ht]
          refine (h3.cons y).trans ?_
          rw [ht2]
          exact List.Perm.swap x y (rest.take m)
        · intro a ha
          have ht : (x :: y :: rest).take (m + 2) = x :: y :: rest.take m := by
            simp [List.take_succ_cons]
          have ht2 : (x :: rest).take (m + 1) = x :: rest.take m := by
            simp [List.take_succ_cons]
          rw [ht] at ha
          rcases List.mem_cons.mp ha with rfl | ha2
          · exact h4 a (by rw [ht2]; exact List.mem_cons_self _ _)
          rcases List.mem_cons.mp ha2 with rfl | ha3
          · exact le_trans (le_of_lt hxy)
              (h4 x (by rw [ht2]; exact List.mem_cons_self _ _))
          · exact h4 a (by rw [ht2]; exact List.mem_cons_of_mem x ha3)
      · have hxy : k x ≤ k y := by
          have := hs
          simp only [keySwap, decide_eq_true_eq] at this
          exact le_of_not_lt this
        obtain ⟨ys, z, h1, h2, h3, h4⟩ := ih (y :: rest) (by simp; omega)
        refine ⟨x :: ys, z, ?_, by simp [h2], ?_, ?_⟩
        · show (if keySwap k x y then y :: sweep (keySwap k) (x :: rest) m
                else x :: sweep (keySwap k) (y :: rest) m)
              = (x :: ys) ++ z :: (x :: y :: rest).drop (m + 2)
          rw [if_neg hs, h1]
          rfl
        · show List.Perm (x :: (ys ++ [z])) ((x :: y :: rest).take (m + 2))
          have ht : (x :: y :: rest).take (m + 2) = x :: y :: rest.take m := by
            simp [List.take_succ_cons]
          have ht2 : (y :: rest).take (m + 1) = y :: rest.take m := by
            simp [List.take_succ_cons]
          rw [ht]
          exact h3.cons x
        · intro a ha
          have ht : (x :: y :: rest).take (m + 2) = x :: y :: rest.take m := by
            simp [List.take_succ_cons]
          have ht2 : (y :: rest).take (m + 1) = y :: rest.take m := by
            simp [List.take_succ_cons]
          rw [ht] at ha
          rcases List.mem_cons.mp ha with rfl | ha2
          · refine le_trans hxy (h4 y ?_)
            rw [ht2]
            exact List.mem_cons_self _ _
          · exact h4 a (by rw [ht2]; exact ha2)

theorem bubbleFrom_sorted {κ : Type} [LinearOrder κ] (k : α → κ) :
    ∀ (b : Nat) (xs : List α), b < xs.length →
    (xs.drop (b + 1)).Pairwise (fun a c => k a ≤ k c) →
    (∀ a ∈ xs.take (b + 1), ∀ c ∈ xs.drop (b + 1), k a ≤ k c) →
    (bubbleFrom (keySwap k) xs b).Pairwise (fun a c => k a ≤ k c) := by
  intro b
  induction b with
  | zero =>
    intro xs _ h1 h2
    show xs.Pairwise (fun a c => k a ≤ k c)
    cases xs with
    | nil => exact List.Pairwise.nil
    | cons x tail =>
      refine List.Pairwise.cons ?_ (by simpa using h1)
      intro c hc
      exact h2 x (by simp) c (by simpa using hc)
  | succ b ih =>
    intro xs hlen h1 h2
    show (bubbleFrom (keySwap k) (sweep (keySwap k) xs (b + 1)) b).Pairwise _
    obtain ⟨ys, z, hsw, hyslen, hperm, hdom⟩ := sweep_spec k (b + 1) xs (by omega)
    have hzmem : z ∈ xs.take (b + 1 + 1) := hperm.subset (by simp)
    have hysmem : ∀ a ∈ ys, a ∈ xs.take (b + 1 + 1) := by
      intro a ha
      exact hperm.subset (List.mem_append_left [z] ha)
    have hdropS : (sweep (keySwap k) xs (b + 1)).drop (b + 1)
        = z :: xs.drop (b + 1 + 1) := by
      rw [hsw, ← hyslen]
      exact List.drop_left ys _
    have htakeS : (sweep (keySwap k) xs (b + 1)).take (b + 1) = ys := by
      rw [hsw, ← hyslen]
      exact List.take_left ys _
    apply ih
    · have := (sweep_perm (keySwap k) (b + 1) xs).length_eq
      omega
    · rw [hdropS]
      refine List.Pairwise.cons ?_ h1
      intro c hc
      exact h2 z hzmem c hc
    · intro a ha c hc
      rw [htakeS] at ha
      rw [hdropS] at hc
      rcases List.mem_cons.mp hc with rfl | hc2
      · exact hdom a (hysmem a ha)
      · exact h2 a (hysmem a ha) c hc2

theorem bubbleSortGo_sorted {κ : Type} [LinearOrder κ] (k : α → κ) (xs : List α) :
    (bubbleSortGo (keySwap k) xs).Pairwise (fun a c => k a ≤ k c) := by
  cases xs with
  | nil => exact List.Pairwise.nil
  | cons x tail =>
    show (bubbleFrom (keySwap k) (x :: tail) ((x :: tail).length - 1)).Pairwise _
    apply bubbleFrom_sorted
    · simp
    · have : (x :: tail).length - 1 + 1 = (x :: tail).length := by simp
      rw [this, List.drop_length]
      exact List.Pairwise.nil
    · intro a _ c hc
      have : (x :: tail).length - 1 + 1 = (x :: tail).length := by simp
      rw [this, List.drop_length] at hc
      cases hc

theorem sweep_pairwise (s : α → α → Bool) (Q : α → α → Prop)
    (hswap : ∀ a b, s a b = true → Q b a) :
    ∀ (m : Nat) (xs : List α), xs.Pairwise Q → (sweep s xs m).Pairwise Q := by
  intro m
  induction m with
  | zero => intro xs h; rw [sweep_zero]; exact h
  | succ m ih =>
    intro xs h
    match xs with
    | [] => exact List.Pairwise.nil
    | [x] => exact h
    | x :: y :: rest =>
      rcases List.pairwise_cons.mp h with ⟨hx, h2⟩
      rcases List.pairwise_cons.mp h2 with ⟨hy, h3⟩
      show (if s x y then y :: sweep s (x :: rest) m
            else x :: sweep s (y :: rest) m).Pairwise Q
      by_cases hs : s x y
      · rw [if_pos hs]
        refine List.Pairwise.cons ?_ ?_
        · intro w hw
          rcases List.mem_cons.mp ((sweep_perm s m (x :: rest)).subset hw) with rfl | hw2
          · exact hswap _ _ hs
          · exact hy w hw2
        · exact ih (x :: rest)
            (List.Pairwise.cons (fun w hw => hx w (List.mem_cons_of_mem y hw)) h3)
      · rw [if_neg hs]
        refine List.Pairwise.cons ?_ ?_
        · intro w hw
          rcases List.mem_cons.mp ((sweep_perm s m (y :: rest)).subset hw) with rfl | hw2
          · exact hx w (List.mem_cons_self _ _)
          · exact hx w (List.mem_cons_of_mem y hw2)
        · exact ih (y :: rest) (List.Pairwise.cons hy h3)

theorem bubbleFrom_pairwise (s : α → α → Bool) (Q : α → α → Prop)
    (hswap : ∀ a b, s a b = true → Q b a) :
    ∀ (b : Nat) (xs : List α), xs.Pairwise Q → (bubbleFrom s xs b).Pairwise Q := by
  intro b
  induction b with
  | zero => intro xs h; exact h
  | succ b ih =>
    intro xs h
    exact ih (sweep s xs (b + 1)) (sweep_pairwise s Q hswap (b + 1) xs h)

theorem bubbleSortGo_pairwise (s : α → α → Bool) (Q : α → α → Prop)
    (hswap : ∀ a b, s a b = true → Q b a) (xs : List α) (h : xs.Pairwise Q) :
    (bubbleSortGo s xs).Pairwise Q :=
  bubbleFrom_pairwise s Q hswap (xs.length - 1) xs h

theorem sweep_map_snd (s : α → α → Bool) :
    ∀ (m : Nat) (l : List (Nat × α)),
    (sweep (pairSwap s) l m).map Prod.snd = sweep s (l.map Prod.snd) m := by
  intro m
  induction m with
  | zero => intro l; rw [sweep_zero, sweep_zero]
  | succ m ih =>
    intro l
    match l with
    | [] => rfl
    | [x] => rfl
    | x :: y :: rest =>
      show (if pairSwap s x y then y :: sweep (pairSwap s) (x :: rest) m
            else x :: sweep (pairSwap s) (y :: rest) m).map Prod.snd
          = if s x.2 y.2 then y.2 :: sweep s (x.2 :: rest.map Prod.snd) m
            else x.2 :: sweep s (y.2 :: rest.map Prod.snd) m
      by_cases hs : s x.2 y.2
      · rw [if_pos (show pairSwap s x y = true from hs), if_pos hs]
        rw [List.map_cons, ih (x :: rest)]
        rfl
      · rw [if_neg (show ¬ pairSwap s x y = true from hs), if_neg hs]
        rw [List.map_cons, ih (y :: rest)]
        rfl

theorem bubbleFrom_map_snd (s : α → α → Bool) :
    ∀ (b : Nat) (l : List (Nat × α)),
    (bubbleFrom (pairSwap s) l b).map Prod.snd = bubbleFrom s (l.map Prod.snd) b := by
  intro b
  induction b with
  | zero => intro l; rfl
  | succ b ih =>
    intro l
    show (bubbleFrom (pairSwap s) (sweep (pairSwap s) l (b + 1)) b).map Prod.snd = _
    rw [ih, sweep_map_snd]
    rfl

theorem bubbleSortGo_map_snd (s : α → α → Bool) (l : List (Nat × α)) :
    (bubbleSortGo (pairSwap s) l).map Prod.snd = bubbleSortGo s (l.map Prod.snd) := by
  unfold bubbleSortGo
  rw [bubbleFrom_map_snd, List.length_map]

theorem pairwise_fst_lt_enumFrom (l : List α) : ∀ n : Nat,
    (List.enumFrom n l).Pairwise (fun a b => a.1 < b.1) := by
  induction l with
  | nil => intro n; exact List.Pairwise.nil
  | cons x l ih =>
    intro n
    refine List.Pairwise.cons ?_ (ih (n + 1))
    intro p hp
    have := List.le_fst_of_mem_enumFrom hp
    omega

theorem shouldSwap_endAsc :
    shouldSwapTask "endTime" "asc" = keySwap keyEndAsc := by
  funext t u
  unfold shouldSwapTask keySwap keyEndAsc
  rw [if_pos rfl]
  cases ht : t.endTime with
  | none =>
    cases hu : u.endTime with
    | none => simp
    | some b => simp [WithTop.coe_lt_top]
  | some a =>
    cases hu : u.endTime with
    | none => simp [not_top_lt]
    | some b =>
      show (if ("asc" : String) = "desc" then decide (a < b) else decide (b < a))
          = decide ((b : WithTop Int) < (a : WithTop Int))
      rw [if_neg (by decide)]
      exact decide_eq_decide.mpr WithTop.coe_lt_coe.symm

theorem shouldSwap_endDesc :
    shouldSwapTask "endTime" "desc" = keySwap keyEndDesc := by
  funext t u
  unfold shouldSwapTask keySwap keyEndDesc
  rw [if_pos rfl]
  cases ht : t.endTime with
  | none =>
    cases hu : u.endTime with
    | none => simp
    | some b => simp [not_lt_bot]
  | some a =>
    cases hu : u.endTime with
    | none => simp [WithBot.bot_lt_coe]
    | some b =>
      show (if ("desc" : String) = "desc" then decide (a < b) else decide (b < a))
          = decide ((↑(-b) : WithBot Int) < (↑(-a) : WithBot Int))
      rw [if_pos rfl]
      exact decide_eq_decide.mpr (by rw [WithBot.coe_lt_coe, neg_lt_neg_iff])

theorem keyEndAsc_eq_iff (a b : SyncTask) :
    keyEndAsc a = keyEndAsc b ↔ a.endTime = b.endTime := by
  unfold keyEndAsc
  cases a.endTime <;> cases b.endTime <;> simp

theorem keyEndDesc_eq_iff (a b : SyncTask) :
    keyEndDesc a = keyEndDesc b ↔ a.endTime = b.endTime := by
  unfold keyEndDesc
  cases a.endTime <;> cases b.endTime <;> simp

theorem keyEndAsc_top_iff (a : SyncTask) : keyEndAsc a = ⊤ ↔ a.endTime = none := by
  unfold keyEndAsc
  cases a.endTime <;> simp

theorem keyEndDesc_bot_iff (a : SyncTask) : keyEndDesc a = ⊥ ↔ a.endTime = none := by
  unfold keyEndDesc
  cases a.endTime <;> simp

/-- C9: sorting by completion time is order-correct and stable: ascending
order sorts by the endTime key that places missing end times above every
concrete one (so nil EndTime tasks come after all concrete ones), descending
places them before; the result is a permutation of the input; and the
index-decorated run of the same bubble sort shows stability: tasks with
equal endTime keys keep their original relative order, and dropping the
indices recovers sortTasks exactly. -/
theorem sortTasks_endTime_order (ts : List SyncTask) :
    ((sortTasks ts "endTime" "asc").Pairwise fun a b => keyEndAsc a ≤ keyEndAsc b) ∧
    ((sortTasks ts "endTime" "asc").Pairwise fun a b =>
        a.endTime = none → b.endTime = none) ∧
    List.Perm (sortTasks ts "endTime" "asc") ts ∧
    ((sortTasks ts "endTime" "desc").Pairwise fun a b => keyEndDesc a ≤ keyEndDesc b) ∧
    ((sortTasks ts "endTime" "desc").Pairwise fun a b =>
        b.endTime = none → a.endTime = none) ∧
    List.Perm (sortTasks ts "endTime" "desc") ts ∧
    ((bubbleSortGo (pairSwap (shouldSwapTask "endTime" "asc")) ts.enum).map Prod.snd
        = sortTasks ts "endTime" "asc") ∧
    ((bubbleSortGo (pairSwap (shouldSwapTask "endTime" "asc")) ts.enum).Pairwise
        fun a b => a.2.endTime = b.2.endTime → a.1 < b.1) ∧
    ((bubbleSortGo (pairSwap (shouldSwapTask "endTime" "desc")) ts.enum).map Prod.snd
        = sortTasks ts "endTime" "desc") ∧
    ((bubbleSortGo (pairSwap (shouldSwapTask "endTime" "desc")) ts.enum).Pairwise
        fun a b => a.2.endTime = b.2.endTime → a.1 < b.1) := by
  have hsortedA : (sortTasks ts "endTime" "asc").Pairwise
      fun a b => keyEndAsc a ≤ keyEndAsc b := by
    unfold sortTasks
    rw [shouldSwap_endAsc]
    exact bubbleSortGo_sorted keyEndAsc ts
  have hsortedD : (sortTasks ts "endTime" "desc").Pairwise
      fun a b => keyEndDesc a ≤ keyEndDesc b := by
    unfold sortTasks
    rw [shouldSwap_endDesc]
    exact bubbleSortGo_sorted keyEndDesc ts
  have henum : (List.enumFrom 0 ts).Pairwise
      fun a b : Nat × SyncTask => a.2.endTime = b.2.endTime → a.1 < b.1 := by
    apply List.Pairwise.imp ?_ (pairwise_fst_lt_enumFrom ts 0)
    intro a b h _
    exact h
  refine ⟨hsortedA, ?_, bubbleSortGo_perm _ ts, hsortedD, ?_, bubbleSortGo_perm _ ts,
      ?_, ?_, ?_, ?_⟩
  · refine hsortedA.imp ?_
    intro a b hle ha
    rw [← keyEndAsc_top_iff] at ha ⊢
    rw [ha] at hle
    exact top_le_iff.mp hle
  · refine hsortedD.imp ?_
    intro a b hle hb
    rw [← keyEndDesc_bot_iff] at hb ⊢
    rw [hb] at hle
    exact le_bot_iff.mp hle
  · unfold sortTasks
    rw [bubbleSortGo_map_snd, List.enum_map_snd]
  · apply bubbleSortGo_pairwise
    · intro a b hs he
      exfalso
      rw [show pairSwap (shouldSwapTask "endTime" "asc") a b
            = shouldSwapTask "endTime" "asc" a.2 b.2 from rfl, shouldSwap_endAsc] at hs
      have hlt : keyEndAsc b.2 < keyEndAsc a.2 := by simpa [keySwap] using hs
      exact absurd ((keyEndAsc_eq_iff b.2 a.2).mpr he) (ne_of_lt hlt)
    · exact henum
  · unfold sortTasks
    rw [bubbleSortGo_map_snd, List.enum_map_snd]
  · apply bubbleSortGo_pairwise
    · intro a b hs he
      exfalso
      rw [show pairSwap (shouldSwapTask "endTime" "desc") a b
            = shouldSwapTask "endTime" "desc" a.2 b.2 from rfl, shouldSwap_endDesc] at hs
      have hlt : keyEndDesc b.2 < keyEndDesc a.2 := by simpa [keySwap] using hs
      exact absurd ((keyEndDesc_eq_iff b.2 a.2).mpr he) (ne_of_lt hlt)
    · exact henum

end ImageSync
